import Mathlib

/-
Shallow embedding of the nexora interactive whiteboard engine:
the canvas component (Whiteboard.svelte, script part) and the command
controller (src/lib/whiteboardController.ts).

Modelling conventions:
* JavaScript numbers are modelled as rationals (ℚ).  All arithmetic the
  verified claims depend on (+, -, *, /, min, max, abs, floor, ceil,
  round) is exact over the values involved, so the rational semantics
  agrees with IEEE double semantics except for rounding noise, which the
  spec explicitly quantifies over ("within floating-point tolerance").
  `Math.sqrt` (used only to pick a grid shape and a sort order inside
  `autoArrangeNodes`) is modelled by a high-precision rational
  approximation `jsqrt`; every theorem below holds for the value it
  produces, and no claim depends on the exact rounding of the square root.
* `Infinity`-seeded running minima/maxima are modelled with `Option ℚ`
  (`none` plays the role of the infinite seed).
* `crypto.randomUUID()` is modelled by an explicit `freshId` argument.
* The randomized shuffle of `adjacentOffsets` inside `autoArrangeNodes`
  (`adjacentOffsets.sort(() => Math.random() - 0.5)`) is modelled by an
  explicit oracle `shuffles : ℕ → List (ℤ × ℤ)` giving the offset order
  produced by the k-th sort call; theorems quantify over the oracle, so
  they cover every randomized execution.
* Presentation-only side effects (the `activeSnapLines` guide lines, CSS,
  cursors, pointer capture, console logging and the final `panTo`
  re-centering of `autoArrangeNodes`) are not part of the embedded state:
  no claim mentions them.
-/

namespace Nexora

/-- Named connector points on a node boundary (Whiteboard.svelte, module
context). -/
inductive ConnectorHandleType where
  | top
  | right
  | bottom
  | left
deriving DecidableEq, Repr

/-- Tag standing for the Svelte component reference stored in
`NodeData.component` (`ImageNode` / `TextNode`); the engine never inspects
it beyond choosing it in `addNode`. -/
inductive NodeComponent where
  | image
  | text
deriving DecidableEq, Repr

/-- Model of the `props : Record<string, any>` payload bag of a node.  The
engine reads only a numeric `width`/`height` hint and a `showId` flag from
it (in `addNode`); everything else is opaque and kept in `extra`. -/
structure NodeProps where
  width : Option ℚ
  height : Option ℚ
  showId : Option Bool
  extra : List (String × String)
deriving DecidableEq, Repr

/-- The `NodeData` record of Whiteboard.svelte. -/
structure NodeData where
  id : String
  showId : Bool
  component : NodeComponent
  x : ℚ
  y : ℚ
  props : NodeProps
  width : ℚ
  height : ℚ
deriving DecidableEq, Repr

/-- One endpoint of a connection: node id plus connector handle. -/
structure ConnectionEnd where
  nodeId : String
  handle : ConnectorHandleType
deriving DecidableEq, Repr

/-- The `Connection` record of Whiteboard.svelte.  The source fields are
called `from` and `to`; `from` is a Lean keyword, hence `fromEnd`/`toEnd`. -/
structure Connection where
  id : String
  fromEnd : ConnectionEnd
  toEnd : ConnectionEnd
deriving DecidableEq, Repr

/-- Default node width (constant in both Whiteboard.svelte and
whiteboardController.ts). -/
def DEFAULT_NODE_WIDTH : ℚ := 200

/-- Default node height. -/
def DEFAULT_NODE_HEIGHT : ℚ := 150

/-- Minimum node width enforced by resizing. -/
def MIN_NODE_WIDTH : ℚ := 30

/-- Minimum node height enforced by resizing. -/
def MIN_NODE_HEIGHT : ℚ := 30

/-- Stage-space snapping threshold. -/
def SNAP_THRESHOLD_STAGE : ℚ := 8

/-- The pan/zoom state of the whiteboard (`panX`, `panY`, `zoom` script
variables). -/
structure Viewport where
  panX : ℚ
  panY : ℚ
  zoom : ℚ
deriving DecidableEq, Repr

/-- Direct embedding of `screenToStageCoordinates` (Whiteboard.svelte). -/
def screenToStageCoordinates (v : Viewport) (screenX screenY : ℚ) : ℚ × ℚ :=
  ((screenX - v.panX) / v.zoom, (screenY - v.panY) / v.zoom)

/-- Direct embedding of `stageToScreenCoordinates` (Whiteboard.svelte). -/
def stageToScreenCoordinates (v : Viewport) (stageX stageY : ℚ) : ℚ × ℚ :=
  (stageX * v.zoom + v.panX, stageY * v.zoom + v.panY)

/-- Embedding of `handleWheel` (Whiteboard.svelte).  `mouseX`/`mouseY` is
the cursor position relative to the container (`getMousePosition`), and
`deltaY` the wheel delta.  Only the viewport part of the handler is state;
clearing `activeSnapLines` is presentation-only. -/
def handleWheel (minZoom maxZoom zoomSensitivity : ℚ) (v : Viewport)
    (mouseX mouseY deltaY : ℚ) : Viewport :=
  let delta := -deltaY * zoomSensitivity
  let newZoom := max minZoom (min maxZoom (v.zoom * (1 + delta)))
  let stageMouseX := (mouseX - v.panX) / v.zoom
  let stageMouseY := (mouseY - v.panY) / v.zoom
  let newPanX := mouseX - stageMouseX * newZoom
  let newPanY := mouseY - stageMouseY * newZoom
  { panX := newPanX, panY := newPanY, zoom := newZoom }

/-- Embedding of the exported `setZoom` of Whiteboard.svelte in the case
where an explicit anchor stage point (`centerX`, `centerY`) is supplied and
the container element is mounted. -/
def setZoom (minZoom maxZoom : ℚ) (v : Viewport)
    (newZoomLevel centerX centerY : ℚ) : Viewport :=
  let clampedZoom := max minZoom (min maxZoom newZoomLevel)
  let screenCenterX := centerX * v.zoom + v.panX
  let screenCenterY := centerY * v.zoom + v.panY
  { panX := screenCenterX - centerX * clampedZoom,
    panY := screenCenterY - centerY * clampedZoom,
    zoom := clampedZoom }

/-- Embedding of the exported `addNode` of Whiteboard.svelte.
`crypto.randomUUID()` is modelled by `freshId`.  Returns the updated node
list together with the created node.  The `typeof props.width === 'number'`
test is modelled by presence of the optional numeric hint. -/
def addNode (nodes : List NodeData) (freshId : String)
    (nodeType : NodeComponent) (x y : ℚ) (props : NodeProps) :
    List NodeData × NodeData :=
  let component := nodeType
  let width := match props.width with
    | some w => w
    | none => DEFAULT_NODE_WIDTH
  let height := match props.height with
    | some h => h
    | none => DEFAULT_NODE_HEIGHT
  let showId := match props.showId with
    | some b => b
    | none =>
      match nodes.head? with
      | some n0 => n0.showId
      | none => false
  let newNode : NodeData :=
    { id := freshId, showId := showId, component := component,
      x := x, y := y, props := props, width := width, height := height }
  (nodes ++ [newNode], newNode)

/-- Embedding of the exported `addConnection` of Whiteboard.svelte.
Returns the created connection (or `none`) together with the resulting
connection list; the node list is read but never written. -/
def addConnection (nodes : List NodeData) (connections : List Connection)
    (freshId : String) (fromNodeId toNodeId : String)
    (fromHandle toHandle : ConnectorHandleType) :
    Option Connection × List Connection :=
  let fromNode := nodes.find? (fun n => n.id == fromNodeId)
  let toNode := nodes.find? (fun n => n.id == toNodeId)
  if fromNode.isNone ∨ toNode.isNone ∨ fromNodeId = toNodeId then
    (none, connections)
  else
    let existing := connections.find? (fun conn =>
      conn.fromEnd.nodeId == fromNodeId && conn.fromEnd.handle == fromHandle &&
      conn.toEnd.nodeId == toNodeId && conn.toEnd.handle == toHandle)
    if existing.isSome then
      (none, connections)
    else
      let newConnection : Connection :=
        { id := freshId,
          fromEnd := { nodeId := fromNodeId, handle := fromHandle },
          toEnd := { nodeId := toNodeId, handle := toHandle } }
      (some newConnection, connections ++ [newConnection])

/-! ## Drag snapping (`calculateAndApplySnapsForDrag`) -/

/-- The three x-axis candidate points of the active node at its tentative
position, each paired with `originalOffset` (Whiteboard.svelte,
`activeNodePointsX`). -/
def activeNodePointsX (activeNode : NodeData) (tentativeX : ℚ) : List (ℚ × ℚ) :=
  [(tentativeX, 0),
   (tentativeX + activeNode.width / 2, -(activeNode.width / 2)),
   (tentativeX + activeNode.width, -activeNode.width)]

/-- The three y-axis candidate points (`activeNodePointsY`). -/
def activeNodePointsY (activeNode : NodeData) (tentativeY : ℚ) : List (ℚ × ℚ) :=
  [(tentativeY, 0),
   (tentativeY + activeNode.height / 2, -(activeNode.height / 2)),
   (tentativeY + activeNode.height, -activeNode.height)]

/-- The x-axis reference points of a static node (`staticNodePointsX`). -/
def staticNodePointsX (n : NodeData) : List ℚ :=
  [n.x, n.x + n.width / 2, n.x + n.width]

/-- The y-axis reference points of a static node (`staticNodePointsY`). -/
def staticNodePointsY (n : NodeData) : List ℚ :=
  [n.y, n.y + n.height / 2, n.y + n.height]

/-- One comparison step of the best-snap search: state is
`(bestDelta, snapTarget, activeNodeOriginalOffset)`, mirroring
`bestDeltaX / xSnapTargetStaticEdgeValue / xSnapActiveNodeOriginalOffset`.
The guide-line source node is presentation-only and not tracked. -/
def snapUpd (acc : ℚ × Option ℚ × ℚ) (activeP : ℚ × ℚ) (staticP : ℚ) :
    ℚ × Option ℚ × ℚ :=
  if |activeP.1 - staticP| < acc.1 then (|activeP.1 - staticP|, some staticP, activeP.2)
  else acc

/-- The triple-nested loop of `calculateAndApplySnapsForDrag` for one axis:
over static nodes (skipping the active node), over active candidate
points, over static reference points. -/
def snapScanAxis (activeNodeId : String) (activePts : List (ℚ × ℚ))
    (staticPtsOf : NodeData → List ℚ) (nodes : List NodeData) :
    ℚ × Option ℚ × ℚ :=
  nodes.foldl
    (fun acc staticNode =>
      if staticNode.id = activeNodeId then acc
      else
        activePts.foldl
          (fun acc2 activeP =>
            (staticPtsOf staticNode).foldl
              (fun acc3 staticP => snapUpd acc3 activeP staticP) acc2)
          acc)
    (SNAP_THRESHOLD_STAGE, none, 0)

/-- Embedding of `calculateAndApplySnapsForDrag` (Whiteboard.svelte):
returns `(newX, newY)` for the dragged node; the `activeSnapLines`
guide-line descriptors it also produces are presentation-only. -/
def calculateAndApplySnapsForDrag (nodes : List NodeData)
    (activeNodeId : String) (tentativeX tentativeY : ℚ) : ℚ × ℚ :=
  match nodes.find? (fun n => n.id == activeNodeId) with
  | none => (tentativeX, tentativeY)
  | some activeNode =>
    let rX := snapScanAxis activeNodeId (activeNodePointsX activeNode tentativeX)
      staticNodePointsX nodes
    let finalX := match rX.2.1 with
      | some target => target + rX.2.2
      | none => tentativeX
    let rY := snapScanAxis activeNodeId (activeNodePointsY activeNode tentativeY)
      staticNodePointsY nodes
    let finalY := match rY.2.1 with
      | some target => target + rY.2.2
      | none => tentativeY
    (finalX, finalY)

/-- The node-dragging branch of `handlePointerMove` (Whiteboard.svelte):
screen delta is converted to stage space by dividing by `zoom`, added to
the position recorded at drag start, snapped, and committed into the node
list (only `x`/`y` of the dragged node are replaced). -/
def dragPointerMove (nodes : List NodeData) (draggedNodeId : String)
    (dragStartX dragStartY nodeStartDragX nodeStartDragY zoom clientX clientY : ℚ) :
    List NodeData :=
  let dxScreen := clientX - dragStartX
  let dyScreen := clientY - dragStartY
  let dxStage := dxScreen / zoom
  let dyStage := dyScreen / zoom
  let tentativeNewX := nodeStartDragX + dxStage
  let tentativeNewY := nodeStartDragY + dyStage
  let snapped := calculateAndApplySnapsForDrag nodes draggedNodeId tentativeNewX tentativeNewY
  nodes.map (fun n =>
    if n.id = draggedNodeId then { n with x := snapped.1, y := snapped.2 } else n)

/-! ## Resize (`handlePointerMove` resize branch and
`calculateAndApplySnapsForResize`) -/

/-- The eight resize handles. -/
inductive ResizeHandleType where
  | tl
  | t
  | tr
  | l
  | r
  | bl
  | b
  | br
deriving DecidableEq, Repr

/-- Model of `handle.includes('l')`. -/
def handleIncludesL : ResizeHandleType → Bool
  | .tl => true
  | .l => true
  | .bl => true
  | _ => false

/-- Model of `handle.includes('r')`.  Note that `'tr'`, `'r'`, `'br'`
contain the letter r. -/
def handleIncludesR : ResizeHandleType → Bool
  | .tr => true
  | .r => true
  | .br => true
  | _ => false

/-- Model of `handle.includes('t')`. -/
def handleIncludesT : ResizeHandleType → Bool
  | .tl => true
  | .t => true
  | .tr => true
  | _ => false

/-- Model of `handle.includes('b')`. -/
def handleIncludesB : ResizeHandleType → Bool
  | .bl => true
  | .b => true
  | .br => true
  | _ => false

/-- A node geometry quadruple, mirroring the
`{ x, y, width, height }` object passed through the resize path. -/
structure Geom where
  x : ℚ
  y : ℚ
  width : ℚ
  height : ℚ
deriving DecidableEq, Repr

/-- The tentative geometry computed by the resize branch of
`handlePointerMove` (lines computing `tentativeX/Y/Width/Height`),
including the final axis overrides for the pure-vertical and
pure-horizontal handles. -/
def resizeTentativeGeom (activeResizeHandle : ResizeHandleType)
    (nodeInitialX nodeInitialY nodeInitialWidth nodeInitialHeight dxStage dyStage : ℚ) :
    Geom :=
  let tentativeX := nodeInitialX
  let tentativeY := nodeInitialY
  let tentativeWidth := nodeInitialWidth
  let tentativeHeight := nodeInitialHeight
  let (tentativeX, tentativeWidth) :=
    if handleIncludesL activeResizeHandle then
      let initialRight := nodeInitialX + nodeInitialWidth
      let tX := nodeInitialX + dxStage
      let tW := max MIN_NODE_WIDTH (initialRight - tX)
      (initialRight - tW, tW)
    else if handleIncludesR activeResizeHandle then
      (tentativeX, max MIN_NODE_WIDTH (nodeInitialWidth + dxStage))
    else (tentativeX, tentativeWidth)
  let (tentativeY, tentativeHeight) :=
    if handleIncludesT activeResizeHandle then
      let initialBottom := nodeInitialY + nodeInitialHeight
      let tY := nodeInitialY + dyStage
      let tH := max MIN_NODE_HEIGHT (initialBottom - tY)
      (initialBottom - tH, tH)
    else if handleIncludesB activeResizeHandle then
      (tentativeY, max MIN_NODE_HEIGHT (nodeInitialHeight + dyStage))
    else (tentativeY, tentativeHeight)
  let (tentativeX, tentativeWidth) :=
    if activeResizeHandle = ResizeHandleType.t ∨ activeResizeHandle = ResizeHandleType.b then
      (nodeInitialX, nodeInitialWidth)
    else (tentativeX, tentativeWidth)
  let (tentativeY, tentativeHeight) :=
    if activeResizeHandle = ResizeHandleType.l ∨ activeResizeHandle = ResizeHandleType.r then
      (nodeInitialY, nodeInitialHeight)
    else (tentativeY, tentativeHeight)
  { x := tentativeX, y := tentativeY, width := tentativeWidth, height := tentativeHeight }

/-- The best-snap scan of `calculateAndApplySnapsForResize` for one moving
edge value against the reference points of the static nodes; returns the
selected static edge value, if any (the guide-line source node is
presentation-only). -/
def resizeSnapScan (activeMovingEdge : ℚ) (staticPtsOf : NodeData → List ℚ)
    (staticNodes : List NodeData) : ℚ × Option ℚ :=
  staticNodes.foldl
    (fun acc staticNode =>
      (staticPtsOf staticNode).foldl
        (fun acc2 staticEdge =>
          if |activeMovingEdge - staticEdge| < acc2.1 then
            (|activeMovingEdge - staticEdge|, some staticEdge)
          else acc2)
        acc)
    (SNAP_THRESHOLD_STAGE, none)

/-- The x half of `calculateAndApplySnapsForResize`: determine the moving
and fixed vertical edges from the handle, scan for the best snap target,
and apply it if the snapped width stays above the minimum (a rejected
snap only suppresses the guide line). -/
def applyResizeSnapX (handle : ResizeHandleType) (res : Geom)
    (staticNodes : List NodeData) : Geom :=
  let edgesX : Option (ℚ × ℚ) :=
    if handleIncludesL handle then some (res.x, res.x + res.width)
    else if handleIncludesR handle then some (res.x + res.width, res.x)
    else none
  match edgesX with
  | none => res
  | some (activeMovingEdgeX, fixedEdgeX) =>
    match (resizeSnapScan activeMovingEdgeX staticNodePointsX staticNodes).2 with
    | none => res
    | some target =>
      if handleIncludesL handle then
        let newX := target
        let newWidth := fixedEdgeX - newX
        if MIN_NODE_WIDTH ≤ newWidth then { res with x := newX, width := newWidth }
        else res
      else
        let newWidth := target - fixedEdgeX
        if MIN_NODE_WIDTH ≤ newWidth then { res with width := newWidth }
        else res

/-- The y half of `calculateAndApplySnapsForResize`, analogous to the x
half with the horizontal edges and the height minimum. -/
def applyResizeSnapY (handle : ResizeHandleType) (res : Geom)
    (staticNodes : List NodeData) : Geom :=
  let edgesY : Option (ℚ × ℚ) :=
    if handleIncludesT handle then some (res.y, res.y + res.height)
    else if handleIncludesB handle then some (res.y + res.height, res.y)
    else none
  match edgesY with
  | none => res
  | some (activeMovingEdgeY, fixedEdgeY) =>
    match (resizeSnapScan activeMovingEdgeY staticNodePointsY staticNodes).2 with
    | none => res
    | some target =>
      if handleIncludesT handle then
        let newY := target
        let newHeight := fixedEdgeY - newY
        if MIN_NODE_HEIGHT ≤ newHeight then { res with y := newY, height := newHeight }
        else res
      else
        let newHeight := target - fixedEdgeY
        if MIN_NODE_HEIGHT ≤ newHeight then { res with height := newHeight }
        else res

/-- Embedding of `calculateAndApplySnapsForResize` (Whiteboard.svelte),
returning the possibly-snapped geometry: the x-axis block runs first on
the tentative geometry, then the y-axis block on its result. -/
def calculateAndApplySnapsForResize (nodes : List NodeData)
    (activeNodeId : String) (tentative : Geom) (handle : ResizeHandleType) :
    Geom :=
  let staticNodes := nodes.filter (fun n => ¬ n.id = activeNodeId)
  applyResizeSnapY handle (applyResizeSnapX handle tentative staticNodes) staticNodes

/-- The node-resizing branch of `handlePointerMove` (Whiteboard.svelte):
tentative geometry from the stage-space pointer delta, snap correction,
and commit into the node list. -/
def resizePointerMove (nodes : List NodeData) (resizingNodeId : String)
    (activeResizeHandle : ResizeHandleType)
    (resizeStartMouseX resizeStartMouseY nodeInitialX nodeInitialY
      nodeInitialWidth nodeInitialHeight zoom clientX clientY : ℚ) :
    List NodeData :=
  let dxScreen := clientX - resizeStartMouseX
  let dyScreen := clientY - resizeStartMouseY
  let dxStage := dxScreen / zoom
  let dyStage := dyScreen / zoom
  let tentative := resizeTentativeGeom activeResizeHandle nodeInitialX nodeInitialY
    nodeInitialWidth nodeInitialHeight dxStage dyStage
  let snappedGeom := calculateAndApplySnapsForResize nodes resizingNodeId tentative
    activeResizeHandle
  nodes.map (fun n =>
    if n.id = resizingNodeId then
      { n with x := snappedGeom.x, y := snappedGeom.y,
               width := snappedGeom.width, height := snappedGeom.height }
    else n)

/-! ## Auto-arrange (`autoArrangeNodes`, whiteboardController.ts) -/

/-- Fuelled binary search for the integer square root: the largest `lo`
with `lo ^ 2 ≤ n`, provided `lo ≤ answer ≤ hi` and enough fuel. -/
def isqrtAux (n : ℕ) : ℕ → ℕ → ℕ → ℕ
  | 0, lo, _ => lo
  | fuel + 1, lo, hi =>
    if hi ≤ lo then lo
    else
      let mid := (lo + hi + 1) / 2
      if mid * mid ≤ n then isqrtAux n fuel mid hi else isqrtAux n fuel lo (mid - 1)

/-- Integer square root (the fuel bounds 128 halvings, enough for any
input below `2 ^ 128`). -/
def isqrt (n : ℕ) : ℕ := isqrtAux n 128 0 n

/-- Rational model of `Math.sqrt`, accurate to roughly `2 ^ (-32)` on the
magnitudes that occur here.  Only the grid-shape estimate and the sort key
of `autoArrangeNodes` consume it, and no claim depends on its exact
rounding. -/
def jsqrt (q : ℚ) : ℚ :=
  if q ≤ 0 then 0 else (isqrt ⌊q * 2 ^ 64⌋.toNat : ℚ) / 2 ^ 32

/-- Rational model of `Math.hypot` for two arguments. -/
def jhypot (a b : ℚ) : ℚ := jsqrt (a * a + b * b)

/-- Running minimum with the `Infinity` seed modelled as `none`. -/
def foldMinQ (l : List ℚ) : Option ℚ :=
  l.foldl
    (fun acc v =>
      match acc with
      | none => some v
      | some m => some (min m v))
    none

/-- Running maximum with the `-Infinity` seed modelled as `none`. -/
def foldMaxQ (l : List ℚ) : Option ℚ :=
  l.foldl
    (fun acc v =>
      match acc with
      | none => some v
      | some m => some (max m v))
    none

/-- Lookup in an insertion-ordered string-keyed map (JS `Map.get`). -/
def mapFind {α : Type} (m : List (String × α)) (k : String) : Option α :=
  (m.find? (fun e => e.1 == k)).map (fun e => e.2)

/-- JS `Map.set`: overwrite the (unique) entry in place if the key
exists (keeping its insertion position), otherwise append at the end. -/
def mapSet {α : Type} : List (String × α) → String → α → List (String × α)
  | [], k, v => [(k, v)]
  | e :: t, k, v => if e.1 = k then (k, v) :: t else e :: mapSet t k v

/-- Append one neighbour to an adjacency entry
(`adjList.get(key)!.push(value)`); a no-op if the key is absent (the
callers ensure presence first). -/
def adjPush : List (String × List String) → String → String →
    List (String × List String)
  | [], _, _ => []
  | e :: t, k, v => if e.1 = k then (e.1, e.2 ++ [v]) :: t else e :: adjPush t k v

/-- One `currentConnections.forEach` step of the adjacency-map
construction in `autoArrangeNodes`. -/
def adjStep (m : List (String × List String)) (conn : Connection) :
    List (String × List String) :=
  let m1 := if (mapFind m conn.fromEnd.nodeId).isSome then m
    else m ++ [(conn.fromEnd.nodeId, [])]
  let m2 := if (mapFind m1 conn.toEnd.nodeId).isSome then m1
    else m1 ++ [(conn.toEnd.nodeId, [])]
  let m3 := adjPush m2 conn.fromEnd.nodeId conn.toEnd.nodeId
  adjPush m3 conn.toEnd.nodeId conn.fromEnd.nodeId

/-- The undirected adjacency map (`adjList`) of `autoArrangeNodes`. -/
def buildAdjList (connections : List Connection) : List (String × List String) :=
  connections.foldl adjStep []

/-- Grid cell access: `some none` is an empty in-bounds cell (`null`),
`some (some id)` an occupied one, `none` out of bounds. -/
def cellAt (grid : List (List (Option String))) (r c : ℕ) : Option (Option String) :=
  (grid.get? r).bind (fun row => row.get? c)

/-- Grid cell write (`grid[r][c] = id`); a no-op out of bounds (the
callers only write in bounds). -/
def gridSet (grid : List (List (Option String))) (r c : ℕ) (id : String) :
    List (List (Option String)) :=
  match grid.get? r with
  | some row => grid.set r (row.set c (some id))
  | none => grid

/-- Minimum x over the nodes (`minX`), seeded with `Infinity`. -/
def arrangeMinX (nodes : List NodeData) : ℚ :=
  (foldMinQ (nodes.map (fun n => n.x))).getD 0

/-- Minimum y over the nodes (`minY`). -/
def arrangeMinY (nodes : List NodeData) : ℚ :=
  (foldMinQ (nodes.map (fun n => n.y))).getD 0

/-- Maximum right edge over the nodes (`maxX`). -/
def arrangeMaxX (nodes : List NodeData) : ℚ :=
  (foldMaxQ (nodes.map (fun n => n.x + n.width))).getD 0

/-- Maximum bottom edge over the nodes (`maxY`). -/
def arrangeMaxY (nodes : List NodeData) : ℚ :=
  (foldMaxQ (nodes.map (fun n => n.y + n.height))).getD 0

/-- The bounding-box aspect ratio used for the grid shape
(`currentLayoutWidth / currentLayoutHeight` when both are positive,
else 1). -/
def arrangeAspect (nodes : List NodeData) : ℚ :=
  let w := arrangeMaxX nodes - arrangeMinX nodes
  let h := arrangeMaxY nodes - arrangeMinY nodes
  if 0 < w ∧ 0 < h then w / h else 1

/-- The estimated column count
(`Math.max(1, Math.round(Math.sqrt(estimatedNumCells * aspectRatio)))`). -/
def arrangeCols (nodes : List NodeData) : ℕ :=
  (max 1 (round (jsqrt ((nodes.length : ℚ) * arrangeAspect nodes)))).toNat

/-- The estimated row count
(`Math.max(1, Math.ceil(estimatedNumCells / estimatedCols))`). -/
def arrangeRows (nodes : List NodeData) : ℕ :=
  (max 1 ⌈(nodes.length : ℚ) / (arrangeCols nodes : ℚ)⌉).toNat

/-- The layout centre x (`layoutCenterX`). -/
def arrangeCenterX (nodes : List NodeData) : ℚ :=
  arrangeMinX nodes + (arrangeMaxX nodes - arrangeMinX nodes) / 2

/-- The layout centre y (`layoutCenterY`). -/
def arrangeCenterY (nodes : List NodeData) : ℚ :=
  arrangeMinY nodes + (arrangeMaxY nodes - arrangeMinY nodes) / 2

/-- The per-node sort key of the placement order:
`Math.hypot(n.x - layoutCenterX, n.y - layoutCenterY)`. -/
def arrangeDist (nodes : List NodeData) (n : NodeData) : ℚ :=
  jhypot (n.x - arrangeCenterX nodes) (n.y - arrangeCenterY nodes)

/-- The placement order (`sortedNodes`): ascending distance from the
layout centre.  `Array.prototype.sort` is a stable sort, matched here by
`List.insertionSort`. -/
def arrangeSortedNodes (nodes : List NodeData) : List NodeData :=
  List.insertionSort (fun a b => arrangeDist nodes a ≤ arrangeDist nodes b) nodes

/-- Row-major enumeration of the grid cells, mirroring the nested
`for (r) for (c)` search loops. -/
def arrangeCellsList (rows cols : ℕ) : List (ℕ × ℕ) :=
  (List.range rows).flatMap (fun r => (List.range cols).map (fun c => (r, c)))

/-- The empty-cell search of the greedy placement: over all cells, keep
the empty cell of minimum squared distance (`minDistanceSq` seeded with
`Infinity`, modelled by the `none` accumulator); `none` plays the role of
`bestRow === -1`. -/
def findBestCell (grid : List (List (Option String))) (rows cols : ℕ)
    (targetRow targetCol : ℤ) : Option (ℕ × ℕ) :=
  ((arrangeCellsList rows cols).foldl
    (fun acc rc =>
      if cellAt grid rc.1 rc.2 = some none then
        let distSq := ((rc.1 : ℤ) - targetRow) ^ 2 + ((rc.2 : ℤ) - targetCol) ^ 2
        match acc with
        | none => some (rc, distSq)
        | some (_, m) => if distSq < m then some (rc, distSq) else acc
      else acc)
    none).map (fun e => e.1)

/-- Mutable state of the arrange placement passes: the cell grid, the
`nodesWithGridPos` map (node snapshot plus optional grid cell), the
`placedNodes` set, and the number of shuffle calls consumed so far. -/
structure ArrangeState where
  grid : List (List (Option String))
  gpos : List (String × (NodeData × Option (ℕ × ℕ)))
  placed : List String
  shuffleIdx : ℕ

/-- `placedNodes.add` (set semantics). -/
def placedInsert (placed : List String) (id : String) : List String :=
  if id ∈ placed then placed else id :: placed

/-- Record a grid cell for an id in `nodesWithGridPos`
(`nodesWithGridPos.get(id)!.gridRow/gridCol = ...`); only the (unique)
existing entry is touched. -/
def posSet : List (String × (NodeData × Option (ℕ × ℕ))) → String → ℕ × ℕ →
    List (String × (NodeData × Option (ℕ × ℕ)))
  | [], _, _ => []
  | e :: t, id, rc =>
    if e.1 = id then (e.1, (e.2.1, some rc)) :: t else e :: posSet t id rc

/-- The common effect of placing a node id into a grid cell: write the
cell, record the cell in `nodesWithGridPos`, and add to `placedNodes`. -/
def placeCell (st : ArrangeState) (id : String) (r c : ℕ) : ArrangeState :=
  { st with grid := gridSet st.grid r c id,
            gpos := posSet st.gpos id (r, c),
            placed := placedInsert st.placed id }

/-- The candidate offsets for adjacent-neighbour placement, in source
order (`adjacentOffsets`); each placement attempt uses a freshly shuffled
copy supplied by the shuffle oracle. -/
def adjacentOffsets : List (ℤ × ℤ) :=
  [(-1, 0), (1, 0), (0, -1), (0, 1), (-1, -1), (-1, 1), (1, -1), (1, 1)]

/-- One `neighborsToPlace.forEach` step: look the neighbour up in the node
list, consume one shuffled offset order, and place the neighbour into the
first empty in-bounds cell adjacent to `(bestRow, bestCol)`, if any. -/
def neighborStep (nodes : List NodeData) (rows cols : ℕ)
    (shuffles : ℕ → List (ℤ × ℤ)) (bestRow bestCol : ℕ)
    (st : ArrangeState) (neighborId : String) : ArrangeState :=
  match nodes.find? (fun n => n.id == neighborId) with
  | none => st
  | some _ =>
    let offs := shuffles st.shuffleIdx
    let st := { st with shuffleIdx := st.shuffleIdx + 1 }
    match offs.find? (fun o =>
        decide (0 ≤ (bestRow : ℤ) + o.1 ∧ (bestRow : ℤ) + o.1 < (rows : ℤ) ∧
          0 ≤ (bestCol : ℤ) + o.2 ∧ (bestCol : ℤ) + o.2 < (cols : ℤ) ∧
          cellAt st.grid ((bestRow : ℤ) + o.1).toNat ((bestCol : ℤ) + o.2).toNat
            = some none)) with
    | some o => placeCell st neighborId ((bestRow : ℤ) + o.1).toNat ((bestCol : ℤ) + o.2).toNat
    | none => st

/-- The clamped target row of a node in the greedy placement pass
(`clampedTargetRow`). -/
def mainTargetRow (nodes : List NodeData) (rows : ℕ) (node : NodeData) : ℤ :=
  let relativeY := node.y - arrangeMinY nodes
  let layoutH := arrangeMaxY nodes - arrangeMinY nodes
  let targetRow : ℤ :=
    min ((rows : ℤ) - 1) ⌊relativeY / (if layoutH = 0 then 1 else layoutH) * (rows : ℚ)⌋
  max 0 (min ((rows : ℤ) - 1) targetRow)

/-- The clamped target column of a node in the greedy placement pass
(`clampedTargetCol`). -/
def mainTargetCol (nodes : List NodeData) (cols : ℕ) (node : NodeData) : ℤ :=
  let relativeX := node.x - arrangeMinX nodes
  let layoutW := arrangeMaxX nodes - arrangeMinX nodes
  let targetCol : ℤ :=
    min ((cols : ℤ) - 1) ⌊relativeX / (if layoutW = 0 then 1 else layoutW) * (cols : ℚ)⌋
  max 0 (min ((cols : ℤ) - 1) targetCol)

/-- One `sortedNodes.forEach` step of the greedy placement pass. -/
def mainStep (nodes : List NodeData) (adjList : List (String × List String))
    (rows cols : ℕ) (shuffles : ℕ → List (ℤ × ℤ))
    (st : ArrangeState) (node : NodeData) : ArrangeState :=
  if node.id ∈ st.placed then st
  else
    match findBestCell st.grid rows cols (mainTargetRow nodes rows node)
        (mainTargetCol nodes cols node) with
    | some (bestRow, bestCol) =>
      let st1 := placeCell st node.id bestRow bestCol
      let neighborsToPlace :=
        ((mapFind adjList node.id).getD []).filter (fun nid => ¬ nid ∈ st1.placed)
      neighborsToPlace.foldl (neighborStep nodes rows cols shuffles bestRow bestCol) st1
    | none =>
      { st with gpos := mapSet st.gpos node.id (node, none) }

/-- The row-major advance of the fallback cursor: the
`while (... grid[currentRow][currentCol] !== null)` loop.  The explicit
fuel argument strictly exceeds the maximal possible number of iterations
(`rows * cols + 1` at every call site), so it never runs out. -/
def fallbackScan (grid : List (List (Option String))) (rows cols : ℕ) :
    ℕ → ℕ → ℕ → ℕ × ℕ
  | 0, r, c => (r, c)
  | fuel + 1, r, c =>
    if r < rows ∧ c < cols ∧ (cellAt grid r c).join.isSome then
      let c1 := c + 1
      if cols ≤ c1 then fallbackScan grid rows cols fuel (r + 1) 0
      else fallbackScan grid rows cols fuel r c1
    else (r, c)

/-- One `nodesWithGridPos.forEach` step of the row-major fallback pass,
threading `(state, currentRow, currentCol)`. -/
def fallbackStep (rows cols : ℕ) (stc : ArrangeState × ℕ × ℕ)
    (entry : String × (NodeData × Option (ℕ × ℕ))) : ArrangeState × ℕ × ℕ :=
  match entry.2.2 with
  | some _ => stc
  | none =>
    let st := stc.1
    let scanned := fallbackScan st.grid rows cols (rows * cols + 1) stc.2.1 stc.2.2
    if scanned.1 < rows ∧ scanned.2 < cols then
      (placeCell st entry.1 scanned.1 scanned.2, scanned.1, scanned.2 + 1)
    else (st, scanned.1, scanned.2)

/-- The row-major fallback pass over the `nodesWithGridPos` entries.
Each step touches only its own entry, so iterating the entry snapshot
matches the live `Map.forEach` iteration. -/
def fallbackPass (rows cols : ℕ) (st : ArrangeState) : ArrangeState :=
  (st.gpos.foldl (fallbackStep rows cols) (st, 0, 0)).1

/-- The full placement pipeline of `autoArrangeNodes`: initial state,
greedy pass over the distance-sorted nodes, then the row-major fallback
pass. -/
def arrangePlacement (shuffles : ℕ → List (ℤ × ℤ)) (nodes : List NodeData)
    (connections : List Connection) : ArrangeState :=
  let rows := arrangeRows nodes
  let cols := arrangeCols nodes
  let grid0 := List.replicate rows (List.replicate cols (none : Option String))
  let gpos0 := nodes.foldl
    (fun m n => mapSet m n.id (n, (none : Option (ℕ × ℕ)))) []
  let adjList := buildAdjList connections
  let st0 : ArrangeState :=
    { grid := grid0, gpos := gpos0, placed := [], shuffleIdx := 0 }
  let stMain :=
    (arrangeSortedNodes nodes).foldl (mainStep nodes adjList rows cols shuffles) st0
  fallbackPass rows cols stMain

/-- The column-width maxima (`colWidths`), seeded with zeros. -/
def colWidthsOf (cols : ℕ)
    (gpos : List (String × (NodeData × Option (ℕ × ℕ)))) : List ℚ :=
  gpos.foldl
    (fun ws e =>
      match e.2.2 with
      | some rc => ws.set rc.2 (max (ws.getD rc.2 0) e.2.1.width)
      | none => ws)
    (List.replicate cols (0 : ℚ))

/-- The row-height maxima (`rowHeights`), seeded with zeros. -/
def rowHeightsOf (rows : ℕ)
    (gpos : List (String × (NodeData × Option (ℕ × ℕ)))) : List ℚ :=
  gpos.foldl
    (fun hs e =>
      match e.2.2 with
      | some rc => hs.set rc.1 (max (hs.getD rc.1 0) e.2.1.height)
      | none => hs)
    (List.replicate rows (0 : ℚ))

/-- Cumulative offsets: `offsets[0] = first` and
`offsets[i+1] = offsets[i] + sizes[i] + padding`.  Called with
`first = padding` and the first `count - 1` sizes, mirroring the
`colOffsets`/`rowOffsets` loops. -/
def buildOffsets (padding : ℚ) : ℚ → List ℚ → List ℚ
  | cur, [] => [cur]
  | cur, w :: ws => cur :: buildOffsets padding (cur + w + padding) ws

/-- Embedding of `autoArrangeNodes` (whiteboardController.ts), returning
the re-positioned node list (`finalArrangedNodes`).  `padding` is the
resolved numeric padding (the string/NaN resolution is modelled separately
by `arrangePadding`); the final viewport re-centering (`panTo`) is not
part of the node state. -/
def autoArrangeNodes (shuffles : ℕ → List (ℤ × ℤ)) (nodes : List NodeData)
    (connections : List Connection) (padding : ℚ) : List NodeData :=
  if nodes.isEmpty then nodes
  else
    let rows := arrangeRows nodes
    let cols := arrangeCols nodes
    let stFinal := arrangePlacement shuffles nodes connections
    let colWidths := colWidthsOf cols stFinal.gpos
    let rowHeights := rowHeightsOf rows stFinal.gpos
    let colOffsets := buildOffsets padding padding (colWidths.take (cols - 1))
    let rowOffsets := buildOffsets padding padding (rowHeights.take (rows - 1))
    nodes.map (fun node =>
      match mapFind stFinal.gpos node.id with
      | some (_, some rc) =>
        { node with x := colOffsets.getD rc.2 0, y := rowOffsets.getD rc.1 0 }
      | _ => node)

/-- The whiteboard state touched by the controller's arrange command. -/
structure WhiteboardState where
  nodes : List NodeData
  connections : List Connection
deriving DecidableEq, Repr

/-- The controller's `autoArrangeNodes` as a state transformer: it calls
`setNodesState(finalArrangedNodes)` and never touches the connection
store. -/
def autoArrangeNodesState (shuffles : ℕ → List (ℤ × ℤ))
    (s : WhiteboardState) (padding : ℚ) : WhiteboardState :=
  { nodes := autoArrangeNodes shuffles s.nodes s.connections padding,
    connections := s.connections }

/-! ## NaN-aware model of the padding resolution (claim C3)

The padding argument of the controller's `autoArrangeNodes` flows through
`parseInt`; an unparsable string or a NaN number survives the `isNaN`
check (which only logs a warning) and reaches the offset computation.
`JNum` is a minimal JavaScript-number model with a NaN element. -/

/-- JavaScript number with NaN, for the padding path of
`autoArrangeNodes`. -/
inductive JNum where
  | num (q : ℚ)
  | nan
deriving DecidableEq, Repr

/-- JavaScript addition on `JNum`: NaN is absorbing. -/
def JNum.add : JNum → JNum → JNum
  | num a, num b => num (a + b)
  | _, _ => nan

/-- Model of `parseInt(s, 10)`: skip leading whitespace, optional sign,
then leading decimal digits; NaN when no digit is found. -/
def jsParseInt (s : String) : JNum :=
  let cs := s.data.dropWhile Char.isWhitespace
  let signAndRest : ℤ × List Char :=
    match cs with
    | c :: rest =>
      if c = '-' then (-1, rest) else if c = '+' then (1, rest) else (1, cs)
    | [] => (1, [])
  let digits := signAndRest.2.takeWhile Char.isDigit
  if digits.isEmpty then JNum.nan
  else JNum.num
    ((signAndRest.1 *
      digits.foldl (fun acc c => acc * 10 + ((c.toNat - 48 : ℕ) : ℤ)) 0 : ℤ) : ℚ)

/-- The three runtime shapes of the controller's padding argument. -/
inductive PaddingInput where
  | num (v : JNum)
  | str (s : String)
  | undef
deriving Repr

/-- The padding-resolution line of the controller's `autoArrangeNodes`:
`typeof paddingInput === 'string' ? parseInt(paddingInput, 10) :
(typeof paddingInput === 'number' ? paddingInput : 60)`.  The subsequent
`isNaN(padding)` test only emits a console warning ("Using default 60.")
and does not replace the value. -/
def arrangePadding : PaddingInput → JNum
  | .str s => jsParseInt s
  | .num v => v
  | .undef => JNum.num 60

/-- The cumulative-offset computation over `JNum` (the `colOffsets` /
`rowOffsets` loops as they behave on a NaN padding). -/
def buildOffsetsJ (padding : JNum) : JNum → List JNum → List JNum
  | cur, [] => [cur]
  | cur, w :: ws => cur :: buildOffsetsJ padding ((cur.add w).add padding) ws

/-! ## Auxiliary predicates for the verification -/

/-- The normalized unordered endpoint pair of a connection (used to state
when two connections join the same pair of nodes). -/
def connKey (c : Connection) : String × String :=
  if c.fromEnd.nodeId ≤ c.toEnd.nodeId then (c.fromEnd.nodeId, c.toEnd.nodeId)
  else (c.toEnd.nodeId, c.fromEnd.nodeId)

/-- A grid is a `rows × cols` rectangle. -/
def gridShape (grid : List (List (Option String))) (rows cols : ℕ) : Prop :=
  grid.length = rows ∧ ∀ row ∈ grid, row.length = cols

/-- Number of occupied cells in one grid row. -/
def rowFilledCount (row : List (Option String)) : ℕ :=
  (row.filter Option.isSome).length

/-- Number of occupied cells in the grid. -/
def filledCount (grid : List (List (Option String))) : ℕ :=
  (grid.map rowFilledCount).sum

/-- The placement invariant of the arrange passes: the grid is
rectangular, the `nodesWithGridPos` keys are exactly the node ids, the
recorded cells and the grid cells are mutually consistent, `placedNodes`
is exactly the set of ids with a recorded cell, and the number of
occupied cells equals the number of placed ids. -/
structure ArrangeInv (nodes : List NodeData) (rows cols : ℕ)
    (st : ArrangeState) : Prop where
  shape : gridShape st.grid rows cols
  keys : st.gpos.map Prod.fst = nodes.map NodeData.id
  pos_grid : ∀ id nd r c, mapFind st.gpos id = some (nd, some (r, c)) →
    r < rows ∧ c < cols ∧ cellAt st.grid r c = some (some id)
  grid_pos : ∀ r c id, r < rows → c < cols →
    cellAt st.grid r c = some (some id) →
    ∃ nd, mapFind st.gpos id = some (nd, some (r, c))
  placed_iff : ∀ id, id ∈ st.placed ↔
    ∃ nd rc, mapFind st.gpos id = some (nd, some rc)
  placed_nodup : st.placed.Nodup
  count : filledCount st.grid = st.placed.length

/-! ## Concrete fixtures used by witnesses and counterexamples -/

/-- Empty payload bag. -/
def exProps : NodeProps := { width := none, height := none, showId := none, extra := [] }

/-- A 100 × 100 node with id `a` at (300, 300). -/
def exNodeA : NodeData :=
  { id := "a", showId := false, component := NodeComponent.text,
    x := 300, y := 300, props := exProps, width := 100, height := 100 }

/-- A 100 × 100 node with id `s` at the origin. -/
def exNodeS : NodeData :=
  { id := "s", showId := false, component := NodeComponent.text,
    x := 0, y := 0, props := exProps, width := 100, height := 100 }

/-- The connection created by a successful `addConnection` of `a` to `s`
with the default handles. -/
def exConn : Connection :=
  { id := "c1",
    fromEnd := { nodeId := "a", handle := ConnectorHandleType.bottom },
    toEnd := { nodeId := "s", handle := ConnectorHandleType.top } }

/-- A payload bag carrying a sub-minimum numeric size hint. -/
def smallHintProps : NodeProps :=
  { width := some 5, height := some 7, showId := none, extra := [] }

/-- First node of the arrange counterexample. -/
def cxNodeA : NodeData :=
  { id := "a", showId := false, component := NodeComponent.text,
    x := 320, y := 0, props := exProps, width := 100, height := 100 }

/-- Second node of the arrange counterexample. -/
def cxNodeB : NodeData :=
  { id := "b", showId := false, component := NodeComponent.text,
    x := 600, y := 50, props := exProps, width := 100, height := 100 }

/-- Third node of the arrange counterexample. -/
def cxNodeC : NodeData :=
  { id := "c", showId := false, component := NodeComponent.text,
    x := 120, y := 60, props := exProps, width := 100, height := 100 }

/-- Node list of the arrange counterexample. -/
def cxNodes : List NodeData := [cxNodeA, cxNodeB, cxNodeC]

/-- A connection from `a` to `b`. -/
def cxConnection1 : Connection :=
  { id := "c1",
    fromEnd := { nodeId := "a", handle := ConnectorHandleType.bottom },
    toEnd := { nodeId := "b", handle := ConnectorHandleType.top } }

/-- A second, distinct connection between the same two nodes (legal:
`addConnection` only rejects duplicates of the full id/handle
quadruple). -/
def cxConnection2 : Connection :=
  { id := "c2",
    fromEnd := { nodeId := "a", handle := ConnectorHandleType.top },
    toEnd := { nodeId := "b", handle := ConnectorHandleType.bottom } }

/-- Connection list of the arrange counterexample. -/
def cxConnections : List Connection := [cxConnection1, cxConnection2]

/-- A possible outcome of the randomized offset shuffles: every sort call
returns the source order (the identity permutation, which
`sort(() => Math.random() - 0.5)` produces with positive probability). -/
def cxShuffles : ℕ → List (ℤ × ℤ) := fun _ => adjacentOffsets

/-! ## Theorems: viewport transform claims -/

/-- C5: for every stage point `p` and every viewport with nonzero zoom,
`screenToStageCoordinates` after `stageToScreenCoordinates` returns `p`
(the round trip is exact over rationals). -/
theorem C5_round_trip_transform (v : Viewport) (p : ℚ × ℚ) (h : v.zoom ≠ 0) :
    screenToStageCoordinates v (stageToScreenCoordinates v p.1 p.2).1
      (stageToScreenCoordinates v p.1 p.2).2 = p := by
  rcases p with ⟨px, py⟩
  simp only [screenToStageCoordinates, stageToScreenCoordinates, Prod.mk.injEq]
  constructor <;> field_simp

/-- Witness for C5 at a concrete viewport and stage point. -/
theorem C5_round_trip_transform_witness :
    screenToStageCoordinates ⟨3, 7, 2⟩
      (stageToScreenCoordinates ⟨3, 7, 2⟩ 5 11).1
      (stageToScreenCoordinates ⟨3, 7, 2⟩ 5 11).2 = ((5 : ℚ), (11 : ℚ)) :=
  C5_round_trip_transform ⟨3, 7, 2⟩ (5, 11) (by norm_num)

/-- C6: after `setZoom` with an explicit anchor stage point, the zoom is
clamped into `[minZoom, maxZoom]` and the anchor's screen position is
unchanged, for any starting zoom inside the bounds, any pan and any
anchor. -/
theorem C6_zoom_anchor_invariance (minZoom maxZoom : ℚ) (v : Viewport)
    (z2 anchorX anchorY : ℚ) (h1 : minZoom ≤ v.zoom) (h2 : v.zoom ≤ maxZoom) :
    minZoom ≤ (setZoom minZoom maxZoom v z2 anchorX anchorY).zoom ∧
    (setZoom minZoom maxZoom v z2 anchorX anchorY).zoom ≤ maxZoom ∧
    stageToScreenCoordinates (setZoom minZoom maxZoom v z2 anchorX anchorY)
        anchorX anchorY
      = stageToScreenCoordinates v anchorX anchorY := by
  refine ⟨le_max_left _ _, max_le (h1.trans h2) (min_le_left _ _), ?_⟩
  simp only [setZoom, stageToScreenCoordinates, Prod.mk.injEq]
  constructor <;> ring

/-- Witness for C6 at concrete inputs. -/
theorem C6_zoom_anchor_invariance_witness :
    (1 : ℚ)/10 ≤ (setZoom (1/10) 5 ⟨2, 3, 1⟩ 7 40 50).zoom ∧
    (setZoom ((1 : ℚ)/10) 5 ⟨2, 3, 1⟩ 7 40 50).zoom ≤ 5 ∧
    stageToScreenCoordinates (setZoom ((1 : ℚ)/10) 5 ⟨2, 3, 1⟩ 7 40 50) 40 50
      = stageToScreenCoordinates ⟨2, 3, 1⟩ 40 50 :=
  C6_zoom_anchor_invariance (1/10) 5 ⟨2, 3, 1⟩ 7 40 50 (by norm_num) (by norm_num)

/-- C8: any wheel event yields
`zoom = clamp(zoom * (1 - deltaY * sensitivity), minZoom, maxZoom)` and
keeps the stage point under the cursor at the same screen position. -/
theorem C8_wheel_zoom_formula (minZoom maxZoom zoomSensitivity : ℚ)
    (v : Viewport) (mouseX mouseY deltaY : ℚ) (h : v.zoom ≠ 0) :
    (handleWheel minZoom maxZoom zoomSensitivity v mouseX mouseY deltaY).zoom
      = max minZoom (min maxZoom (v.zoom * (1 - deltaY * zoomSensitivity))) ∧
    stageToScreenCoordinates
        (handleWheel minZoom maxZoom zoomSensitivity v mouseX mouseY deltaY)
        (screenToStageCoordinates v mouseX mouseY).1
        (screenToStageCoordinates v mouseX mouseY).2
      = (mouseX, mouseY) := by
  constructor
  · simp only [handleWheel]
    have : v.zoom * (1 + -deltaY * zoomSensitivity)
        = v.zoom * (1 - deltaY * zoomSensitivity) := by ring
    rw [this]
  · simp only [handleWheel, stageToScreenCoordinates, screenToStageCoordinates,
      Prod.mk.injEq]
    constructor <;> ring

/-- Witness for C8 at concrete inputs. -/
theorem C8_wheel_zoom_formula_witness :
    (handleWheel ((1 : ℚ)/10) 5 (1/500) ⟨4, -3, 2⟩ 30 40 120).zoom
      = max ((1 : ℚ)/10) (min 5 (2 * (1 - 120 * (1/500)))) ∧
    stageToScreenCoordinates (handleWheel ((1 : ℚ)/10) 5 (1/500) ⟨4, -3, 2⟩ 30 40 120)
        (screenToStageCoordinates ⟨4, -3, 2⟩ 30 40).1
        (screenToStageCoordinates ⟨4, -3, 2⟩ 30 40).2
      = ((30 : ℚ), (40 : ℚ)) :=
  C8_wheel_zoom_formula (1/10) 5 (1/500) ⟨4, -3, 2⟩ 30 40 120 (by norm_num)

/-- C2 (counterexample): in the spec scenario (zoom 1, pan (0,0),
deltaY −100, sensitivity 0.002, cursor (50,50)) the code produces zoom
exactly 1.2, which is not approximately `e^0.2 ≈ 1.2214`: the gap exceeds
1/100, far beyond floating-point tolerance. -/
theorem C2_wheel_scenario_counterexample :
    (handleWheel (1/10) 5 (1/500) ⟨0, 0, 1⟩ 50 50 (-100)).zoom = 6/5 ∧
    (1/100 : ℚ) < |(6 : ℚ)/5 - 12214/10000| := by
  constructor
  · norm_num [handleWheel]
  · rw [abs_of_nonpos (by norm_num)]
    norm_num

/-- C2 (amended): the scenario produces new zoom exactly
`1.2 = 1 * (1 - (-100) * 0.002)`, and the stage point that was under the
cursor maps back to screen (50,50) exactly. -/
theorem C2_wheel_scenario :
    (handleWheel (1/10) 5 (1/500) ⟨0, 0, 1⟩ 50 50 (-100)).zoom = 6/5 ∧
    stageToScreenCoordinates (handleWheel (1/10) 5 (1/500) ⟨0, 0, 1⟩ 50 50 (-100))
        (screenToStageCoordinates ⟨0, 0, 1⟩ 50 50).1
        (screenToStageCoordinates ⟨0, 0, 1⟩ 50 50).2
      = ((50 : ℚ), (50 : ℚ)) := by
  constructor
  · norm_num [handleWheel]
  · norm_num [handleWheel, stageToScreenCoordinates, screenToStageCoordinates]

/-! ## Theorems: connection validity (C7) -/

/-- C7: `addConnection` returns null on a self connection, on an exact
duplicate of a previous successful call, on a from-id missing from the
node list, and on a to-id missing from the node list; in each null case
the connection list is returned unchanged (and the function never writes
the node list). -/
theorem C7_connection_validity (nodes : List NodeData)
    (connections : List Connection) :
    (∀ freshId a fh th,
      addConnection nodes connections freshId a a fh th = (none, connections)) ∧
    (∀ freshId freshId2 a b fh th c conns2,
      addConnection nodes connections freshId a b fh th = (some c, conns2) →
      addConnection nodes conns2 freshId2 a b fh th = (none, conns2)) ∧
    (∀ freshId a b fh th, ¬ a ∈ nodes.map NodeData.id →
      addConnection nodes connections freshId a b fh th = (none, connections)) ∧
    (∀ freshId a b fh th, ¬ b ∈ nodes.map NodeData.id →
      addConnection nodes connections freshId a b fh th = (none, connections)) := by
  refine ⟨?_, ?_, ?_, ?_⟩
  · intro freshId a fh th
    simp [addConnection]
  · intro freshId freshId2 a b fh th c conns2 h
    by_cases h1 : (nodes.find? (fun n => n.id == a)).isNone ∨
        (nodes.find? (fun n => n.id == b)).isNone ∨ a = b
    · simp only [addConnection, if_pos h1, Prod.mk.injEq] at h
      exact absurd h.1 (by simp)
    · simp only [addConnection, if_neg h1] at h
      by_cases h2 : (connections.find? (fun conn =>
          conn.fromEnd.nodeId == a && conn.fromEnd.handle == fh &&
          conn.toEnd.nodeId == b && conn.toEnd.handle == th)).isSome
      · rw [if_pos h2] at h
        exact absurd h (by simp)
      · rw [if_neg h2] at h
        rw [Prod.mk.injEq] at h
        obtain ⟨hc, hl⟩ := h
        simp only [addConnection, if_neg h1]
        have hmem : (conns2.find? (fun conn =>
            conn.fromEnd.nodeId == a && conn.fromEnd.handle == fh &&
            conn.toEnd.nodeId == b && conn.toEnd.handle == th)).isSome := by
          rw [← hl, List.find?_isSome]
          exact ⟨Connection.mk freshId (ConnectionEnd.mk a fh) (ConnectionEnd.mk b th),
            by simp, by simp⟩
        rw [if_pos hmem]
  · intro freshId a b fh th hmem
    have : nodes.find? (fun n => n.id == a) = none := by
      rw [List.find?_eq_none]
      intro x hx
      simp only [beq_iff_eq]
      intro hxa
      exact hmem (List.mem_map.mpr ⟨x, hx, hxa⟩)
    simp [addConnection, this]
  · intro freshId a b fh th hmem
    have : nodes.find? (fun n => n.id == b) = none := by
      rw [List.find?_eq_none]
      intro x hx
      simp only [beq_iff_eq]
      intro hxb
      exact hmem (List.mem_map.mpr ⟨x, hx, hxb⟩)
    simp [addConnection, this]

/-- Witness for C7: concrete self-connection, duplicate, missing-from-id
and missing-to-id calls on a two-node store. -/
theorem C7_connection_validity_witness :
    addConnection [exNodeA, exNodeS] [] "c9" "a" "a"
        ConnectorHandleType.bottom ConnectorHandleType.top = (none, []) ∧
    addConnection [exNodeA, exNodeS] [exConn] "c2" "a" "s"
        ConnectorHandleType.bottom ConnectorHandleType.top = (none, [exConn]) ∧
    addConnection [exNodeA, exNodeS] [] "c3" "zz" "s"
        ConnectorHandleType.bottom ConnectorHandleType.top = (none, []) ∧
    addConnection [exNodeA, exNodeS] [] "c4" "a" "zz"
        ConnectorHandleType.bottom ConnectorHandleType.top = (none, []) := by
  refine ⟨(C7_connection_validity [exNodeA, exNodeS] []).1 "c9" "a"
      ConnectorHandleType.bottom ConnectorHandleType.top, ?_, ?_, ?_⟩
  · exact (C7_connection_validity [exNodeA, exNodeS] []).2.1 "c1" "c2" "a" "s"
      ConnectorHandleType.bottom ConnectorHandleType.top exConn [exConn] (by decide)
  · exact (C7_connection_validity [exNodeA, exNodeS] []).2.2.1 "c3" "zz" "s"
      ConnectorHandleType.bottom ConnectorHandleType.top (by decide)
  · exact (C7_connection_validity [exNodeA, exNodeS] []).2.2.2 "c4" "a" "zz"
      ConnectorHandleType.bottom ConnectorHandleType.top (by decide)

/-! ## Theorems: NaN padding (C3) -/

/-- C3 (code behaviour at the failing input): an unparsable padding
string resolves to NaN, the NaN is NOT replaced by the documented default
60 (the `isNaN` check only logs), and it propagates through the
cumulative offset computation into every column offset, hence into the
`x` position of every arranged node. -/
theorem C3_nan_padding_propagates :
    arrangePadding (PaddingInput.str "abc") = JNum.nan ∧
    buildOffsetsJ JNum.nan JNum.nan [JNum.num 100, JNum.num 50]
      = [JNum.nan, JNum.nan, JNum.nan] ∧
    JNum.nan ≠ JNum.num 60 := by
  refine ⟨by decide, rfl, by decide⟩

/-! ## Theorems: arrange frame effect (C9) -/

/-- Shared helper: `autoArrangeNodes` only rewrites `x`/`y`; id, size,
payload, flags and component of every node are preserved pointwise. -/
theorem autoArrangeNodes_proj (shuffles : ℕ → List (ℤ × ℤ))
    (nodes : List NodeData) (connections : List Connection) (padding : ℚ) :
    (autoArrangeNodes shuffles nodes connections padding).map
        (fun n => (n.id, n.width, n.height, n.props, n.showId, n.component))
      = nodes.map (fun n => (n.id, n.width, n.height, n.props, n.showId, n.component)) := by
  unfold autoArrangeNodes
  split
  · rfl
  · rw [List.map_map]
    apply List.map_congr_left
    intro n _
    rcases h : mapFind (arrangePlacement shuffles nodes connections).gpos n.id with _ | ⟨nd, _ | rc⟩ <;>
      simp [h]

/-- C9: arrange leaves the number of nodes unchanged, leaves the
connection list entirely unchanged, and preserves id, width, height and
payload props of every node (in order); only `x`/`y` may change. -/
theorem C9_arrange_lossless (shuffles : ℕ → List (ℤ × ℤ))
    (s : WhiteboardState) (padding : ℚ) :
    (autoArrangeNodesState shuffles s padding).connections = s.connections ∧
    (autoArrangeNodesState shuffles s padding).nodes.length = s.nodes.length ∧
    (autoArrangeNodesState shuffles s padding).nodes.map
        (fun n => (n.id, n.width, n.height, n.props))
      = s.nodes.map (fun n => (n.id, n.width, n.height, n.props)) := by
  refine ⟨rfl, ?_, ?_⟩
  · have h := congrArg List.length
      (autoArrangeNodes_proj shuffles s.nodes s.connections padding)
    simpa [autoArrangeNodesState] using h
  · have h := congrArg (List.map (fun p : String × ℚ × ℚ × NodeProps × Bool × NodeComponent =>
      (p.1, p.2.1, p.2.2.1, p.2.2.2.1)))
      (autoArrangeNodes_proj shuffles s.nodes s.connections padding)
    simpa [autoArrangeNodesState, List.map_map] using h

/-! ## Theorems: minimum node size (C1) -/

/-- The tentative resize geometry never shrinks below the minimum on a
resized axis, and keeps the initial size on an untouched axis. -/
theorem resizeTentativeGeom_min (handle : ResizeHandleType)
    (x0 y0 w0 h0 dx dy : ℚ)
    (hw : MIN_NODE_WIDTH ≤ w0) (hh : MIN_NODE_HEIGHT ≤ h0) :
    MIN_NODE_WIDTH ≤ (resizeTentativeGeom handle x0 y0 w0 h0 dx dy).width ∧
    MIN_NODE_HEIGHT ≤ (resizeTentativeGeom handle x0 y0 w0 h0 dx dy).height := by
  cases handle <;>
    simp [resizeTentativeGeom, handleIncludesL, handleIncludesR,
      handleIncludesT, handleIncludesB] <;>
    first
      | (constructor <;>
          first
            | exact le_max_left _ _
            | exact hw
            | exact hh)
      | exact le_max_left _ _
      | exact hw
      | exact hh

/-- The x-snap application never lowers the width below the minimum if it
was at least the minimum before. -/
theorem applyResizeSnapX_width_min (handle : ResizeHandleType) (res : Geom)
    (staticNodes : List NodeData) (hw : MIN_NODE_WIDTH ≤ res.width) :
    MIN_NODE_WIDTH ≤ (applyResizeSnapX handle res staticNodes).width := by
  unfold applyResizeSnapX
  split
  · cases hs : (resizeSnapScan res.x staticNodePointsX staticNodes).2 <;>
      simp only [hs] <;>
      first
        | exact hw
        | (split_ifs with hguard <;> first | simpa using hguard | exact hw)
  · by_cases hR : handleIncludesR handle = true
    · simp only [if_pos hR]
      cases hs : (resizeSnapScan (res.x + res.width) staticNodePointsX staticNodes).2 <;>
        simp only [hs] <;>
        first
          | exact hw
          | (split_ifs with hguard <;> first | simpa using hguard | exact hw)
    · simp only [if_neg hR]
      exact hw

/-- The x-snap application leaves the y position and the height
unchanged. -/
theorem applyResizeSnapX_height_eq (handle : ResizeHandleType) (res : Geom)
    (staticNodes : List NodeData) :
    (applyResizeSnapX handle res staticNodes).height = res.height := by
  unfold applyResizeSnapX
  split
  · cases hs : (resizeSnapScan res.x staticNodePointsX staticNodes).2 <;>
      simp only [hs] <;>
      first
        | rfl
        | (split_ifs <;> rfl)
  · by_cases hR : handleIncludesR handle = true
    · simp only [if_pos hR]
      cases hs : (resizeSnapScan (res.x + res.width) staticNodePointsX staticNodes).2 <;>
        simp only [hs] <;>
        first
          | rfl
          | (split_ifs <;> rfl)
    · simp only [if_neg hR]

/-- The y-snap application never lowers the height below the minimum if
it was at least the minimum before. -/
theorem applyResizeSnapY_height_min (handle : ResizeHandleType) (res : Geom)
    (staticNodes : List NodeData) (hh : MIN_NODE_HEIGHT ≤ res.height) :
    MIN_NODE_HEIGHT ≤ (applyResizeSnapY handle res staticNodes).height := by
  unfold applyResizeSnapY
  split
  · cases hs : (resizeSnapScan res.y staticNodePointsY staticNodes).2 <;>
      simp only [hs] <;>
      first
        | exact hh
        | (split_ifs with hguard <;> first | simpa using hguard | exact hh)
  · by_cases hB : handleIncludesB handle = true
    · simp only [if_pos hB]
      cases hs : (resizeSnapScan (res.y + res.height) staticNodePointsY staticNodes).2 <;>
        simp only [hs] <;>
        first
          | exact hh
          | (split_ifs with hguard <;> first | simpa using hguard | exact hh)
    · simp only [if_neg hB]
      exact hh

/-- The y-snap application leaves the x position and the width
unchanged. -/
theorem applyResizeSnapY_width_eq (handle : ResizeHandleType) (res : Geom)
    (staticNodes : List NodeData) :
    (applyResizeSnapY handle res staticNodes).width = res.width := by
  unfold applyResizeSnapY
  split
  · cases hs : (resizeSnapScan res.y staticNodePointsY staticNodes).2 <;>
      simp only [hs] <;>
      first
        | rfl
        | (split_ifs <;> rfl)
  · by_cases hB : handleIncludesB handle = true
    · simp only [if_pos hB]
      cases hs : (resizeSnapScan (res.y + res.height) staticNodePointsY staticNodes).2 <;>
        simp only [hs] <;>
        first
          | rfl
          | (split_ifs <;> rfl)
    · simp only [if_neg hB]

/-- The snap correction of a resize either keeps a dimension or replaces
it by a value it has checked against the minimum. -/
theorem calculateAndApplySnapsForResize_min (nodes : List NodeData)
    (activeNodeId : String) (g : Geom) (handle : ResizeHandleType)
    (hw : MIN_NODE_WIDTH ≤ g.width) (hh : MIN_NODE_HEIGHT ≤ g.height) :
    MIN_NODE_WIDTH ≤ (calculateAndApplySnapsForResize nodes activeNodeId g handle).width ∧
    MIN_NODE_HEIGHT ≤ (calculateAndApplySnapsForResize nodes activeNodeId g handle).height := by
  unfold calculateAndApplySnapsForResize
  constructor
  · rw [applyResizeSnapY_width_eq]
    exact applyResizeSnapX_width_min handle g _ hw
  · apply applyResizeSnapY_height_min
    rw [applyResizeSnapX_height_eq]
    exact hh

/-- C1 (counterexample): `addNode` copies a numeric width hint verbatim,
so a hint of 5 creates a node in the store whose width is 5 < 30,
violating the claimed invariant right after a mutation. -/
theorem C1_addNode_counterexample :
    (addNode [] "n1" NodeComponent.text 0 0 smallHintProps).2
      ∈ (addNode [] "n1" NodeComponent.text 0 0 smallHintProps).1 ∧
    (addNode [] "n1" NodeComponent.text 0 0 smallHintProps).2.width = 5 ∧
    ¬ MIN_NODE_WIDTH ≤ (addNode [] "n1" NodeComponent.text 0 0 smallHintProps).2.width := by
  refine ⟨by simp [addNode], by simp [addNode, smallHintProps], by decide⟩

/-- Shared helper: every node of an arranged list keeps the width and
height of the node it came from. -/
theorem autoArrangeNodes_mem_size (shuffles : ℕ → List (ℤ × ℤ))
    (nodes : List NodeData) (connections : List Connection) (padding : ℚ) :
    ∀ n ∈ autoArrangeNodes shuffles nodes connections padding,
      ∃ m ∈ nodes, n.width = m.width ∧ n.height = m.height := by
  intro n hn
  unfold autoArrangeNodes at hn
  split at hn
  · exact ⟨n, hn, rfl, rfl⟩
  · obtain ⟨m, hm, rfl⟩ := List.mem_map.mp hn
    refine ⟨m, hm, ?_, ?_⟩ <;>
      rcases h : mapFind (arrangePlacement shuffles nodes connections).gpos m.id with
        _ | ⟨nd, _ | rc⟩ <;>
      simp [h]

/-- C1 (amended): resize pointer-moves (with or without snapping), drags
and arrange all preserve the minimum-size invariant `width ≥ 30 ∧ height
≥ 30`; `addNode`, however, copies any numeric width/height hint verbatim
(default 200 × 150), so creation maintains the invariant only when the
hint does. -/
theorem C1_min_size_invariant (nodes : List NodeData)
    (hAll : ∀ n ∈ nodes, MIN_NODE_WIDTH ≤ n.width ∧ MIN_NODE_HEIGHT ≤ n.height) :
    (∀ resizingNodeId handle sx sy x0 y0 w0 h0 zoom cx cy,
      MIN_NODE_WIDTH ≤ w0 → MIN_NODE_HEIGHT ≤ h0 →
      ∀ n ∈ resizePointerMove nodes resizingNodeId handle sx sy x0 y0 w0 h0 zoom cx cy,
        MIN_NODE_WIDTH ≤ n.width ∧ MIN_NODE_HEIGHT ≤ n.height) ∧
    (∀ draggedNodeId dsx dsy nsx nsy zoom cx cy,
      ∀ n ∈ dragPointerMove nodes draggedNodeId dsx dsy nsx nsy zoom cx cy,
        MIN_NODE_WIDTH ≤ n.width ∧ MIN_NODE_HEIGHT ≤ n.height) ∧
    (∀ shuffles connections padding,
      ∀ n ∈ autoArrangeNodes shuffles nodes connections padding,
        MIN_NODE_WIDTH ≤ n.width ∧ MIN_NODE_HEIGHT ≤ n.height) ∧
    (∀ freshId nodeType x y props,
      (addNode nodes freshId nodeType x y props).2.width
        = props.width.getD DEFAULT_NODE_WIDTH ∧
      (addNode nodes freshId nodeType x y props).2.height
        = props.height.getD DEFAULT_NODE_HEIGHT) := by
  refine ⟨?_, ?_, ?_, ?_⟩
  · intro rid handle sx sy x0 y0 w0 h0 zoom cx cy hw0 hh0 n hn
    simp only [resizePointerMove] at hn
    obtain ⟨m, hm, rfl⟩ := List.mem_map.mp hn
    by_cases h : m.id = rid
    · have ht := resizeTentativeGeom_min handle x0 y0 w0 h0
        ((cx - sx) / zoom) ((cy - sy) / zoom) hw0 hh0
      have hs := calculateAndApplySnapsForResize_min nodes rid
        (resizeTentativeGeom handle x0 y0 w0 h0 ((cx - sx) / zoom) ((cy - sy) / zoom))
        handle ht.1 ht.2
      simpa [h] using hs
    · simpa [h] using hAll m hm
  · intro did dsx dsy nsx nsy zoom cx cy n hn
    simp only [dragPointerMove] at hn
    obtain ⟨m, hm, rfl⟩ := List.mem_map.mp hn
    by_cases h : m.id = did
    · simpa [h] using hAll m hm
    · simpa [h] using hAll m hm
  · intro shuffles connections padding n hn
    obtain ⟨m, hm, hwn, hhn⟩ :=
      autoArrangeNodes_mem_size shuffles nodes connections padding n hn
    rw [hwn, hhn]
    exact hAll m hm
  · intro freshId nodeType x y props
    cases hW : props.width <;> cases hH : props.height <;>
      simp [addNode, hW, hH]

set_option maxHeartbeats 1000000 in
/-- Witness for C1 at a concrete store and a concrete resize, drag,
arrange and creation. -/
theorem C1_min_size_invariant_witness :
    (MIN_NODE_WIDTH ≤ ((resizePointerMove [exNodeA] "a" ResizeHandleType.br
        0 0 300 300 100 100 1 (-500) (-500)).getD 0 exNodeA).width ∧
      MIN_NODE_HEIGHT ≤ ((resizePointerMove [exNodeA] "a" ResizeHandleType.br
        0 0 300 300 100 100 1 (-500) (-500)).getD 0 exNodeA).height) ∧
    (MIN_NODE_WIDTH ≤ ((dragPointerMove [exNodeA] "a" 0 0 300 300 1 40 40).getD 0 exNodeA).width ∧
      MIN_NODE_HEIGHT ≤ ((dragPointerMove [exNodeA] "a" 0 0 300 300 1 40 40).getD 0 exNodeA).height) ∧
    (MIN_NODE_WIDTH ≤ ((autoArrangeNodes cxShuffles [exNodeA] [] 60).getD 0 exNodeA).width ∧
      MIN_NODE_HEIGHT ≤ ((autoArrangeNodes cxShuffles [exNodeA] [] 60).getD 0 exNodeA).height) ∧
    ((addNode [exNodeA] "n2" NodeComponent.text 0 0 exProps).2.width
        = exProps.width.getD DEFAULT_NODE_WIDTH ∧
      (addNode [exNodeA] "n2" NodeComponent.text 0 0 exProps).2.height
        = exProps.height.getD DEFAULT_NODE_HEIGHT) := by
  have h := C1_min_size_invariant [exNodeA] (by decide)
  refine ⟨h.1 "a" ResizeHandleType.br 0 0 300 300 100 100 1 (-500) (-500)
      (by norm_num [MIN_NODE_WIDTH]) (by norm_num [MIN_NODE_HEIGHT]) _ ?_,
    h.2.1 "a" 0 0 300 300 1 40 40 _ ?_,
    h.2.2.1 cxShuffles [] 60 _ ?_,
    h.2.2.2 "n2" NodeComponent.text 0 0 exProps⟩ <;>
  · rw [List.getD_eq_get _ _ (by decide)]
    exact List.get_mem _ _ _

/-! ## Theorems: drag snapping (C4) -/

/-- A best-snap fold pass over candidate/reference pairs leaves the
accumulator untouched when no pair beats the current best delta. -/
theorem snapFold_ge (l : List ((ℚ × ℚ) × ℚ)) (acc : ℚ × Option ℚ × ℚ)
    (h : ∀ p ∈ l, acc.1 ≤ |p.1.1 - p.2|) :
    l.foldl (fun a p => snapUpd a p.1 p.2) acc = acc := by
  induction l with
  | nil => rfl
  | cons p l ih =>
    have hp := h p (List.mem_cons_self ..)
    rw [List.foldl_cons, show snapUpd acc p.1 p.2 = acc from by
      unfold snapUpd; rw [if_neg (not_lt.mpr hp)]]
    exact ih (fun q hq => h q (List.mem_cons_of_mem _ hq))

/-- The best delta tracked by a best-snap fold is either the initial one
or the delta of one of the visited pairs. -/
theorem snapFold_fst_cases (l : List ((ℚ × ℚ) × ℚ)) (acc : ℚ × Option ℚ × ℚ) :
    (l.foldl (fun a p => snapUpd a p.1 p.2) acc).1 = acc.1 ∨
    ∃ p ∈ l, (l.foldl (fun a p => snapUpd a p.1 p.2) acc).1 = |p.1.1 - p.2| := by
  induction l generalizing acc with
  | nil => exact Or.inl rfl
  | cons p l ih =>
    rw [List.foldl_cons]
    rcases ih (snapUpd acc p.1 p.2) with h | ⟨q, hq, hEq⟩
    · by_cases hc : |p.1.1 - p.2| < acc.1
      · refine Or.inr ⟨p, List.mem_cons_self .., ?_⟩
        rw [h, show snapUpd acc p.1 p.2 = (|p.1.1 - p.2|, some p.2, p.1.2) from by
          unfold snapUpd; rw [if_pos hc]]
      · refine Or.inl ?_
        rw [h, show snapUpd acc p.1 p.2 = acc from by
          unfold snapUpd; rw [if_neg hc]]
    · exact Or.inr ⟨q, List.mem_cons_of_mem _ hq, hEq⟩

/-- If one pair of the scan strictly beats the initial threshold and all
other pairs, the fold selects exactly that pair. -/
theorem snapFold_select (l : List ((ℚ × ℚ) × ℚ)) (p0 : (ℚ × ℚ) × ℚ)
    (acc : ℚ × Option ℚ × ℚ) (hmem : p0 ∈ l)
    (h0 : |p0.1.1 - p0.2| < acc.1)
    (hmin : ∀ p ∈ l, p ≠ p0 → |p0.1.1 - p0.2| < |p.1.1 - p.2|) :
    l.foldl (fun a p => snapUpd a p.1 p.2) acc
      = (|p0.1.1 - p0.2|, some p0.2, p0.1.2) := by
  induction l generalizing acc with
  | nil => exact absurd hmem (List.not_mem_nil _)
  | cons p l ih =>
    rw [List.foldl_cons]
    by_cases hp : p = p0
    · subst hp
      rw [show snapUpd acc p.1 p.2 = (|p.1.1 - p.2|, some p.2, p.1.2) from by
        unfold snapUpd; rw [if_pos h0]]
      apply snapFold_ge
      intro q hq
      by_cases hqp : q = p
      · subst hqp; exact le_refl _
      · exact le_of_lt (hmin q (List.mem_cons_of_mem _ hq) hqp)
    · have hmem2 : p0 ∈ l := by
        rcases List.mem_cons.mp hmem with h | h
        · exact absurd h.symm hp
        · exact h
      have hnext : |p0.1.1 - p0.2| < (snapUpd acc p.1 p.2).1 := by
        unfold snapUpd
        split_ifs with hc
        · exact hmin p (List.mem_cons_self ..) hp
        · exact h0
      exact ih (snapUpd acc p.1 p.2) hmem2 hnext
        (fun q hq => hmin q (List.mem_cons_of_mem _ hq))

/-- The inner fold over one static node's reference points equals a fold
over candidate/reference pairs. -/
theorem foldl_map_pair (ap : ℚ × ℚ) (sps : List ℚ) (init : ℚ × Option ℚ × ℚ) :
    sps.foldl (fun acc3 sp => snapUpd acc3 ap sp) init
      = (sps.map (fun sp => (ap, sp))).foldl (fun a p => snapUpd a p.1 p.2) init := by
  induction sps generalizing init with
  | nil => rfl
  | cons sp rest ih =>
    rw [List.foldl_cons, List.map_cons, List.foldl_cons]
    exact ih _

/-- On a two-node store, the per-axis snap scan of a drag is the
best-snap fold over the nine (candidate, reference) pairs formed against
the single static node. -/
theorem snapScanAxis_two (activeNodeId : String) (activePts : List (ℚ × ℚ))
    (staticPtsOf : NodeData → List ℚ) (a s : NodeData)
    (ha : a.id = activeNodeId) (hs : ¬ s.id = activeNodeId) :
    snapScanAxis activeNodeId activePts staticPtsOf [a, s]
      = (activePts.flatMap (fun ap => (staticPtsOf s).map (fun sp => (ap, sp)))).foldl
          (fun acc p => snapUpd acc p.1 p.2) (SNAP_THRESHOLD_STAGE, none, 0) := by
  unfold snapScanAxis
  rw [List.foldl_cons, List.foldl_cons, List.foldl_nil, if_pos ha, if_neg hs]
  generalize (SNAP_THRESHOLD_STAGE, (none : Option ℚ), (0 : ℚ)) = init
  induction activePts generalizing init with
  | nil => rfl
  | cons ap rest ih =>
    rw [List.foldl_cons, List.flatMap_cons, List.foldl_append, foldl_map_pair]
    exact ih _

/-- C4: during a drag against a single static node, when the dragged
node's tentative left edge is the strictly closest (candidate, reference)
pair on the x axis against the static node's right edge (hypotheses
h1–h8) and no y pair is inside the threshold (hY): if the left-to-right
distance is under the 8-unit threshold the committed x puts the left edge
exactly on the static right edge; if it exceeds the threshold the exact
tentative position is kept; and a drag commit always preserves every
node's width and height. -/
theorem C4_drag_snap_threshold (a s : NodeData) (tX tY : ℚ)
    (hid : ¬ s.id = a.id)
    (h1 : |tX - (s.x + s.width)| < |tX - s.x|)
    (h2 : |tX - (s.x + s.width)| < |tX - (s.x + s.width / 2)|)
    (h3 : |tX - (s.x + s.width)| < |tX + a.width / 2 - s.x|)
    (h4 : |tX - (s.x + s.width)| < |tX + a.width / 2 - (s.x + s.width / 2)|)
    (h5 : |tX - (s.x + s.width)| < |tX + a.width / 2 - (s.x + s.width)|)
    (h6 : |tX - (s.x + s.width)| < |tX + a.width - s.x|)
    (h7 : |tX - (s.x + s.width)| < |tX + a.width - (s.x + s.width / 2)|)
    (h8 : |tX - (s.x + s.width)| < |tX + a.width - (s.x + s.width)|)
    (hY : ∀ py ∈ (activeNodePointsY a tY).flatMap
        (fun ap => (staticNodePointsY s).map (fun sp => (ap, sp))),
      SNAP_THRESHOLD_STAGE ≤ |py.1.1 - py.2|) :
    (|tX - (s.x + s.width)| < SNAP_THRESHOLD_STAGE →
      calculateAndApplySnapsForDrag [a, s] a.id tX tY = (s.x + s.width, tY)) ∧
    (SNAP_THRESHOLD_STAGE < |tX - (s.x + s.width)| →
      calculateAndApplySnapsForDrag [a, s] a.id tX tY = (tX, tY)) ∧
    (∀ dragStartX dragStartY nodeStartDragX nodeStartDragY zoom clientX clientY,
      (dragPointerMove [a, s] a.id dragStartX dragStartY nodeStartDragX
          nodeStartDragY zoom clientX clientY).map (fun n => (n.id, n.width, n.height))
        = [a, s].map (fun n => (n.id, n.width, n.height))) := by
  have hfind : List.find? (fun n => n.id == a.id) [a, s] = some a := by
    simp [List.find?]
  have hYlit : ∀ py ∈ [((tY, (0 : ℚ)), s.y), ((tY, (0 : ℚ)), s.y + s.height / 2),
      ((tY, (0 : ℚ)), s.y + s.height),
      ((tY + a.height / 2, -(a.height / 2)), s.y),
      ((tY + a.height / 2, -(a.height / 2)), s.y + s.height / 2),
      ((tY + a.height / 2, -(a.height / 2)), s.y + s.height),
      ((tY + a.height, -a.height), s.y),
      ((tY + a.height, -a.height), s.y + s.height / 2),
      ((tY + a.height, -a.height), s.y + s.height)],
      SNAP_THRESHOLD_STAGE ≤ |py.1.1 - py.2| := by
    simpa [activeNodePointsY, staticNodePointsY] using hY
  have hYfold : ([((tY, (0 : ℚ)), s.y), ((tY, (0 : ℚ)), s.y + s.height / 2),
      ((tY, (0 : ℚ)), s.y + s.height),
      ((tY + a.height / 2, -(a.height / 2)), s.y),
      ((tY + a.height / 2, -(a.height / 2)), s.y + s.height / 2),
      ((tY + a.height / 2, -(a.height / 2)), s.y + s.height),
      ((tY + a.height, -a.height), s.y),
      ((tY + a.height, -a.height), s.y + s.height / 2),
      ((tY + a.height, -a.height), s.y + s.height)]).foldl
        (fun acc p => snapUpd acc p.1 p.2) (SNAP_THRESHOLD_STAGE, none, 0)
      = (SNAP_THRESHOLD_STAGE, none, 0) :=
    snapFold_ge _ _ hYlit
  refine ⟨?_, ?_, ?_⟩
  · intro hlt
    simp only [calculateAndApplySnapsForDrag, hfind]
    rw [snapScanAxis_two a.id (activeNodePointsX a tX) staticNodePointsX a s rfl hid,
      snapScanAxis_two a.id (activeNodePointsY a tY) staticNodePointsY a s rfl hid]
    simp only [activeNodePointsX, activeNodePointsY, staticNodePointsX, staticNodePointsY,
      List.flatMap_cons, List.flatMap_nil, List.map_cons, List.map_nil,
      List.cons_append, List.nil_append, List.append_nil]
    rw [snapFold_select _ (((tX, 0), s.x + s.width)) _ (by simp) hlt ?hmin, hYfold]
    · simp
    case hmin =>
      intro p hp hne
      simp only [List.mem_cons, List.not_mem_nil, or_false] at hp
      rcases hp with rfl | rfl | rfl | rfl | rfl | rfl | rfl | rfl | rfl
      · exact h1
      · exact h2
      · exact absurd rfl hne
      · exact h3
      · exact h4
      · exact h5
      · exact h6
      · exact h7
      · exact h8
  · intro hgt
    simp only [calculateAndApplySnapsForDrag, hfind]
    rw [snapScanAxis_two a.id (activeNodePointsX a tX) staticNodePointsX a s rfl hid,
      snapScanAxis_two a.id (activeNodePointsY a tY) staticNodePointsY a s rfl hid]
    simp only [activeNodePointsX, activeNodePointsY, staticNodePointsX, staticNodePointsY,
      List.flatMap_cons, List.flatMap_nil, List.map_cons, List.map_nil,
      List.cons_append, List.nil_append, List.append_nil]
    rw [snapFold_ge _ _ ?hge, hYfold]
    case hge =>
      intro p hp
      simp only [List.mem_cons, List.not_mem_nil, or_false] at hp
      rcases hp with rfl | rfl | rfl | rfl | rfl | rfl | rfl | rfl | rfl
      · exact le_of_lt (hgt.trans h1)
      · exact le_of_lt (hgt.trans h2)
      · exact le_of_lt hgt
      · exact le_of_lt (hgt.trans h3)
      · exact le_of_lt (hgt.trans h4)
      · exact le_of_lt (hgt.trans h5)
      · exact le_of_lt (hgt.trans h6)
      · exact le_of_lt (hgt.trans h7)
      · exact le_of_lt (hgt.trans h8)
  · intro dragStartX dragStartY nodeStartDragX nodeStartDragY zoom clientX clientY
    simp only [dragPointerMove, List.map_map]
    apply List.map_congr_left
    intro n _
    by_cases h : n.id = a.id <;> simp [h]

set_option maxHeartbeats 1000000 in
/-- Witness for C4: node `a` tentatively at (105, 200) against the static
100 × 100 node `s` at the origin snaps to x = 100 (the right edge of
`s`), keeps y, and a drag commit preserves sizes. -/
theorem C4_drag_snap_threshold_witness :
    |(105 : ℚ) - (exNodeS.x + exNodeS.width)| < SNAP_THRESHOLD_STAGE ∧
    calculateAndApplySnapsForDrag [exNodeA, exNodeS] exNodeA.id 105 200
      = (exNodeS.x + exNodeS.width, 200) ∧
    (dragPointerMove [exNodeA, exNodeS] exNodeA.id 0 0 100 195 1 5 5).map
        (fun n => (n.id, n.width, n.height))
      = [exNodeA, exNodeS].map (fun n => (n.id, n.width, n.height)) := by
  have h := C4_drag_snap_threshold exNodeA exNodeS 105 200
    (by simp [exNodeS, exNodeA])
    (by norm_num [exNodeS]) (by norm_num [exNodeS])
    (by norm_num [exNodeA, exNodeS]) (by norm_num [exNodeA, exNodeS])
    (by norm_num [exNodeA, exNodeS]) (by norm_num [exNodeA, exNodeS])
    (by norm_num [exNodeA, exNodeS]) (by norm_num [exNodeA, exNodeS])
    (by
      intro py hpy
      simp only [activeNodePointsY, staticNodePointsY, exNodeA, exNodeS,
        List.flatMap_cons, List.flatMap_nil, List.map_cons, List.map_nil,
        List.append_nil, List.cons_append, List.nil_append,
        List.mem_cons, List.not_mem_nil, or_false] at hpy
      rcases hpy with rfl | rfl | rfl | rfl | rfl | rfl | rfl | rfl | rfl <;>
        norm_num [SNAP_THRESHOLD_STAGE])
  exact ⟨by norm_num [exNodeS, SNAP_THRESHOLD_STAGE],
    h.1 (by norm_num [exNodeS, SNAP_THRESHOLD_STAGE]),
    h.2.2 0 0 100 195 1 5 5⟩

/-! ## Theorems: arrange placement machinery (C10) -/

/-- Membership in a list after `set` comes from the new element or the
old list. -/
theorem mem_set_cases {α : Type} {l : List α} {n : ℕ} {a x : α}
    (h : x ∈ l.set n a) : x = a ∨ x ∈ l := by
  induction l generalizing n with
  | nil => simp at h
  | cons hd tl ih =>
    cases n with
    | zero =>
      rcases List.mem_cons.mp h with h1 | h1
      · exact Or.inl h1
      · exact Or.inr (List.mem_cons_of_mem _ h1)
    | succ m =>
      rcases List.mem_cons.mp h with h1 | h1
      · exact Or.inr (h1 ▸ List.mem_cons_self ..)
      · rcases ih h1 with h2 | h2
        · exact Or.inl h2
        · exact Or.inr (List.mem_cons_of_mem _ h2)

/-- The freshly allocated grid is rectangular. -/
theorem gridShape_replicate (rows cols : ℕ) :
    gridShape (List.replicate rows (List.replicate cols (none : Option String))) rows cols := by
  refine ⟨by simp, ?_⟩
  intro row hrow
  rw [List.eq_of_mem_replicate hrow]
  simp

/-- Writing a cell preserves the grid shape. -/
theorem gridShape_gridSet {grid : List (List (Option String))} {rows cols : ℕ}
    (h : gridShape grid rows cols) (r c : ℕ) (id : String) :
    gridShape (gridSet grid r c id) rows cols := by
  unfold gridSet
  cases hg : grid.get? r with
  | none => exact h
  | some row =>
    refine ⟨by rw [List.length_set]; exact h.1, ?_⟩
    intro row2 hrow2
    rcases mem_set_cases hrow2 with rfl | hmem
    · rw [List.length_set]
      exact h.2 row (List.get?_mem hg)
    · exact h.2 _ hmem

/-- Reading back the freshly written cell. -/
theorem cellAt_gridSet_self {grid : List (List (Option String))} {rows cols : ℕ}
    (h : gridShape grid rows cols) {r c : ℕ} (hr : r < rows) (hc : c < cols)
    (id : String) : cellAt (gridSet grid r c id) r c = some (some id) := by
  have hrlen : r < grid.length := by rw [h.1]; exact hr
  have hrow := List.get?_eq_get hrlen
  unfold gridSet
  rw [hrow]
  unfold cellAt
  rw [List.get?_set_eq, hrow]
  have hclen : c < (grid.get ⟨r, hrlen⟩).length := by
    rw [h.2 _ (List.get_mem grid r hrlen)]
    exact hc
  simp only [Option.map_eq_map, Option.map_some', Option.some_bind]
  rw [List.get?_eq_getElem?, List.getElem?_set_self hclen]

/-- Reading any other cell after a write. -/
theorem cellAt_gridSet_ne {grid : List (List (Option String))}
    (r c : ℕ) (id : String) {r2 c2 : ℕ} (hne : ¬ (r2 = r ∧ c2 = c)) :
    cellAt (gridSet grid r c id) r2 c2 = cellAt grid r2 c2 := by
  unfold gridSet
  cases hg : grid.get? r with
  | none => rfl
  | some row =>
    unfold cellAt
    by_cases hr : r2 = r
    · subst hr
      have hc : ¬ c2 = c := fun hcc => hne ⟨rfl, hcc⟩
      rw [List.get?_set_eq, hg]
      simp only [Option.map_eq_map, Option.map_some', Option.some_bind, hg]
      rw [List.get?_eq_getElem?, List.get?_eq_getElem?,
        List.getElem?_set_ne (fun hccc => hc hccc.symm)]
    · rw [List.get?_set_ne _ _ (fun hrr => hr hrr.symm)]

/-- Splitting off the head of the occupancy count. -/
theorem rowFilledCount_cons (hd : Option String) (tl : List (Option String)) :
    rowFilledCount (hd :: tl) = (if hd.isSome then 1 else 0) + rowFilledCount tl := by
  unfold rowFilledCount
  rw [List.filter_cons]
  split_ifs with h <;> simp [h]
  omega

/-- Filling an empty cell of a row adds one to its occupancy count. -/
theorem rowFilledCount_set (row : List (Option String)) (c : ℕ) (v : String)
    (h : row.get? c = some none) :
    rowFilledCount (row.set c (some v)) = rowFilledCount row + 1 := by
  induction row generalizing c with
  | nil => simp at h
  | cons hd tl ih =>
    cases c with
    | zero =>
      simp only [List.get?] at h
      obtain rfl : hd = none := by injection h
      rw [List.set_cons_zero, rowFilledCount_cons, rowFilledCount_cons]
      simp
      omega
    | succ m =>
      simp only [List.get?] at h
      rw [List.set_cons_succ, rowFilledCount_cons, rowFilledCount_cons, ih m h]
      omega

/-- Splitting off the first row of the grid occupancy count. -/
theorem filledCount_cons (g0 : List (Option String))
    (gt : List (List (Option String))) :
    filledCount (g0 :: gt) = rowFilledCount g0 + filledCount gt := by
  simp [filledCount]

/-- Replacing one row changes the total count by the row-count
difference. -/
theorem filledCount_set_row (grid : List (List (Option String))) (r : ℕ)
    (row' row : List (Option String)) (hg : grid.get? r = some row) :
    filledCount (grid.set r row') + rowFilledCount row
      = filledCount grid + rowFilledCount row' := by
  induction grid generalizing r with
  | nil => simp at hg
  | cons g0 gt ih =>
    cases r with
    | zero =>
      simp only [List.get?] at hg
      obtain rfl : g0 = row := by injection hg
      rw [List.set_cons_zero, filledCount_cons, filledCount_cons]
      omega
    | succ m =>
      simp only [List.get?] at hg
      rw [List.set_cons_succ, filledCount_cons, filledCount_cons]
      have := ih m hg
      omega

/-- Filling an empty in-bounds cell adds one to the occupancy count. -/
theorem filledCount_gridSet (grid : List (List (Option String))) (r c : ℕ)
    (v : String) (hempty : cellAt grid r c = some none) :
    filledCount (gridSet grid r c v) = filledCount grid + 1 := by
  unfold cellAt at hempty
  cases hg : grid.get? r with
  | none => rw [hg] at hempty; simp at hempty
  | some row =>
    rw [hg] at hempty
    simp only [Option.some_bind] at hempty
    simp only [gridSet, hg]
    have h1 := rowFilledCount_set row c v hempty
    have h2 := filledCount_set_row grid r (row.set c (some v)) row hg
    omega

/-- A row with no empty in-bounds cell is fully occupied. -/
theorem rowFilledCount_full (row : List (Option String))
    (h : ∀ c, c < row.length → ¬ row.get? c = some none) :
    rowFilledCount row = row.length := by
  induction row with
  | nil => rfl
  | cons hd tl ih =>
    have h0 := h 0 (by simp)
    have hhd : hd.isSome := by
      cases hd
      · simp [List.get?] at h0
      · rfl
    rw [rowFilledCount_cons, if_pos hhd,
      ih (fun c hc => by
        have := h (c + 1) (by simpa using Nat.succ_lt_succ hc)
        simpa [List.get?] using this)]
    simp [Nat.add_comm]

/-- A rectangular grid with no empty cell is fully occupied. -/
theorem filledCount_full (grid : List (List (Option String))) (cols : ℕ)
    (hlen : ∀ row ∈ grid, row.length = cols)
    (h : ∀ r c, r < grid.length → c < cols → ¬ cellAt grid r c = some none) :
    filledCount grid = grid.length * cols := by
  induction grid with
  | nil => simp [filledCount]
  | cons g0 gt ih =>
    have hg0 : rowFilledCount g0 = cols := by
      rw [rowFilledCount_full g0 ?_]
      · exact hlen g0 (List.mem_cons_self ..)
      · intro c hc
        have := h 0 c (by simp) (by rw [← hlen g0 (List.mem_cons_self ..)]; exact hc)
        simpa [cellAt, List.get?] using this
    rw [filledCount_cons, hg0,
      ih (fun row hrow => hlen row (List.mem_cons_of_mem _ hrow))
        (fun r c hr hc => by
          have := h (r + 1) c (by simpa using Nat.succ_lt_succ hr) hc
          simpa [cellAt, List.get?] using this)]
    simp [List.length_cons]
    ring

/-- A rectangular grid holding fewer occupants than cells has an empty
in-bounds cell. -/
theorem exists_empty_cell (grid : List (List (Option String))) (rows cols : ℕ)
    (hsh : gridShape grid rows cols) (hlt : filledCount grid < rows * cols) :
    ∃ r c, r < rows ∧ c < cols ∧ cellAt grid r c = some none := by
  by_contra hno
  push_neg at hno
  have hfull := filledCount_full grid cols hsh.2
    (fun r c hr hc => by
      rw [hsh.1] at hr
      exact hno r c hr hc)
  rw [hsh.1] at hfull
  omega

/-- The cell enumeration lists exactly the in-bounds cells. -/
theorem mem_arrangeCellsList {rows cols : ℕ} {rc : ℕ × ℕ} :
    rc ∈ arrangeCellsList rows cols ↔ rc.1 < rows ∧ rc.2 < cols := by
  rcases rc with ⟨r, c⟩
  simp only [arrangeCellsList, List.mem_flatMap, List.mem_map, List.mem_range]
  constructor
  · rintro ⟨r2, hr2, c2, hc2, heq⟩
    obtain ⟨rfl, rfl⟩ : r2 = r ∧ c2 = c := by
      constructor <;> [exact (Prod.mk.injEq .. ▸ heq).1; exact (Prod.mk.injEq .. ▸ heq).2]
    exact ⟨hr2, hc2⟩
  · rintro ⟨hr, hc⟩
    exact ⟨r, hr, c, hc, rfl⟩

/-- A generic fold-invariant lemma. -/
theorem foldl_preserve {α β : Type} (P : β → Prop) (Q : α → Prop) (f : β → α → β)
    (l : List α) (hl : ∀ x ∈ l, Q x) (hstep : ∀ b x, P b → Q x → P (f b x))
    (b0 : β) (h0 : P b0) : P (l.foldl f b0) := by
  induction l generalizing b0 with
  | nil => exact h0
  | cons x l ih =>
    rw [List.foldl_cons]
    exact ih (fun y hy => hl y (List.mem_cons_of_mem _ hy))
      (f b0 x) (hstep b0 x h0 (hl x (List.mem_cons_self ..)))

/-- Soundness of the best-cell fold: starting from a sound accumulator,
the fold over in-bounds cells only ever returns an empty in-bounds
cell. -/
theorem findBestCell_fold_spec (grid : List (List (Option String)))
    (rows cols : ℕ) (tr tc : ℤ) (l : List (ℕ × ℕ))
    (hl : ∀ x ∈ l, x.1 < rows ∧ x.2 < cols)
    (acc : Option ((ℕ × ℕ) × ℤ))
    (hacc : ∀ x d, acc = some (x, d) →
      x.1 < rows ∧ x.2 < cols ∧ cellAt grid x.1 x.2 = some none) :
    ∀ x d, (l.foldl
      (fun acc rc =>
        if cellAt grid rc.1 rc.2 = some none then
          let distSq := ((rc.1 : ℤ) - tr) ^ 2 + ((rc.2 : ℤ) - tc) ^ 2
          match acc with
          | none => some (rc, distSq)
          | some (_, m) => if distSq < m then some (rc, distSq) else acc
        else acc) acc) = some (x, d) →
      x.1 < rows ∧ x.2 < cols ∧ cellAt grid x.1 x.2 = some none := by
  induction l generalizing acc with
  | nil => exact hacc
  | cons rc2 l ih =>
    rw [List.foldl_cons]
    refine ih (fun y hy => hl y (List.mem_cons_of_mem _ hy)) _ ?_
    intro x d hxd
    by_cases hcell : cellAt grid rc2.1 rc2.2 = some none
    · rw [if_pos hcell] at hxd
      rcases acc with _ | ⟨y, m⟩
      · simp only [Option.some.injEq, Prod.mk.injEq] at hxd
        obtain ⟨rfl, -⟩ := hxd
        exact ⟨(hl rc2 (List.mem_cons_self ..)).1, (hl rc2 (List.mem_cons_self ..)).2, hcell⟩
      · dsimp only at hxd
        split_ifs at hxd
        · simp only [Option.some.injEq, Prod.mk.injEq] at hxd
          obtain ⟨rfl, -⟩ := hxd
          exact ⟨(hl rc2 (List.mem_cons_self ..)).1, (hl rc2 (List.mem_cons_self ..)).2, hcell⟩
        · exact hacc x d hxd
    · rw [if_neg hcell] at hxd
      exact hacc x d hxd

/-- Soundness of the best-cell search: a returned cell is an empty
in-bounds cell. -/
theorem findBestCell_some_spec (grid : List (List (Option String)))
    (rows cols : ℕ) (tr tc : ℤ) {rc : ℕ × ℕ}
    (h : findBestCell grid rows cols tr tc = some rc) :
    rc.1 < rows ∧ rc.2 < cols ∧ cellAt grid rc.1 rc.2 = some none := by
  unfold findBestCell at h
  rw [Option.map_eq_some'] at h
  obtain ⟨⟨x, d⟩, hfold, hx⟩ := h
  cases hx
  exact findBestCell_fold_spec grid rows cols tr tc (arrangeCellsList rows cols)
    (fun y hy => mem_arrangeCellsList.mp hy) none (by intro y e hye; cases hye)
    x d hfold

/-- Completeness of the best-cell search: if an empty in-bounds cell
exists, the search returns a cell. -/
theorem findBestCell_isSome (grid : List (List (Option String)))
    (rows cols : ℕ) (tr tc : ℤ)
    (h : ∃ r c, r < rows ∧ c < cols ∧ cellAt grid r c = some none) :
    (findBestCell grid rows cols tr tc).isSome := by
  obtain ⟨r, c, hr, hc, hcell⟩ := h
  unfold findBestCell
  rw [Option.isSome_map']
  have hmem : ((r, c) : ℕ × ℕ) ∈ arrangeCellsList rows cols :=
    mem_arrangeCellsList.mpr ⟨hr, hc⟩
  clear hr hc
  have hgen : ∀ (l : List (ℕ × ℕ)) (acc : Option ((ℕ × ℕ) × ℤ)),
      ((r, c) ∈ l ∨ acc.isSome) →
      (l.foldl (fun acc rc =>
        if cellAt grid rc.1 rc.2 = some none then
          let distSq := ((rc.1 : ℤ) - tr) ^ 2 + ((rc.2 : ℤ) - tc) ^ 2
          match acc with
          | none => some (rc, distSq)
          | some (_, m) => if distSq < m then some (rc, distSq) else acc
        else acc)
        acc).isSome := by
    intro l
    induction l with
    | nil =>
      intro acc hcase
      rcases hcase with hmem2 | hs
      · exact absurd hmem2 (List.not_mem_nil _)
      · exact hs
    | cons x l ih =>
      intro acc hcase
      rw [List.foldl_cons]
      rcases hcase with hmem2 | hs
      · rcases List.mem_cons.mp hmem2 with rfl | hmem3
        · refine ih _ (Or.inr ?_)
          rw [if_pos hcell]
          rcases acc with _ | ⟨y, m⟩
          · rfl
          · dsimp only
            split_ifs <;> rfl
        · exact ih _ (Or.inl hmem3)
      · refine ih _ (Or.inr ?_)
        rcases acc with _ | ⟨y, m⟩
        · simp at hs
        · by_cases h1 : cellAt grid x.1 x.2 = some none
          · rw [if_pos h1]
            dsimp only
            split_ifs <;> rfl
          · rw [if_neg h1]
            rfl
  exact hgen _ _ (Or.inl hmem)

/-! ### Assoc-map lemmas -/

/-- Unfolding the lookup over a cons cell. -/
theorem mapFind_cons {α : Type} (e : String × α) (t : List (String × α))
    (k : String) :
    mapFind (e :: t) k = if e.1 = k then some e.2 else mapFind t k := by
  by_cases he : e.1 = k
  · rw [if_pos he, mapFind, List.find?_cons_of_pos _ (by simpa using he)]
    rfl
  · rw [if_neg he, mapFind, List.find?_cons_of_neg _ (by simpa using he)]
    rfl

/-- Looking up the freshly set key. -/
theorem mapFind_mapSet_self {α : Type} (m : List (String × α)) (k : String)
    (v : α) : mapFind (mapSet m k v) k = some v := by
  induction m with
  | nil =>
    rw [show mapSet [] k v = [(k, v)] from rfl, mapFind_cons, if_pos rfl]
  | cons e t ih =>
    by_cases he : e.1 = k
    · rw [show mapSet (e :: t) k v
          = if e.1 = k then (k, v) :: t else e :: mapSet t k v from rfl,
        if_pos he, mapFind_cons, if_pos rfl]
    · rw [show mapSet (e :: t) k v
          = if e.1 = k then (k, v) :: t else e :: mapSet t k v from rfl,
        if_neg he, mapFind_cons, if_neg he]
      exact ih

/-- Looking up another key after a set. -/
theorem mapFind_mapSet_ne {α : Type} (m : List (String × α)) (k k2 : String)
    (v : α) (hne : ¬ k2 = k) : mapFind (mapSet m k v) k2 = mapFind m k2 := by
  induction m with
  | nil =>
    rw [show mapSet [] k v = [(k, v)] from rfl, mapFind_cons,
      if_neg (fun h => hne h.symm)]
  | cons e t ih =>
    by_cases he : e.1 = k
    · rw [show mapSet (e :: t) k v
          = if e.1 = k then (k, v) :: t else e :: mapSet t k v from rfl,
        if_pos he, mapFind_cons, if_neg (fun h => hne h.symm), mapFind_cons,
        if_neg (he ▸ fun h => hne h.symm)]
    · rw [show mapSet (e :: t) k v
          = if e.1 = k then (k, v) :: t else e :: mapSet t k v from rfl,
        if_neg he, mapFind_cons, mapFind_cons]
      by_cases he2 : e.1 = k2
      · rw [if_pos he2, if_pos he2]
      · rw [if_neg he2, if_neg he2]
        exact ih

/-- Setting an existing key keeps the key list. -/
theorem mapSet_keys_mem {α : Type} (m : List (String × α)) (k : String) (v : α)
    (h : k ∈ m.map Prod.fst) : (mapSet m k v).map Prod.fst = m.map Prod.fst := by
  induction m with
  | nil => simp at h
  | cons e t ih =>
    by_cases he : e.1 = k
    · rw [show mapSet (e :: t) k v
          = if e.1 = k then (k, v) :: t else e :: mapSet t k v from rfl,
        if_pos he]
      simp [he]
    · rw [List.map_cons] at h
      rcases List.mem_cons.mp h with h1 | h1
      · exact absurd h1.symm he
      · rw [show mapSet (e :: t) k v
            = if e.1 = k then (k, v) :: t else e :: mapSet t k v from rfl,
          if_neg he, List.map_cons, List.map_cons, ih h1]

/-- Setting a fresh key appends it to the key list. -/
theorem mapSet_keys_new {α : Type} (m : List (String × α)) (k : String) (v : α)
    (h : ¬ k ∈ m.map Prod.fst) :
    (mapSet m k v).map Prod.fst = m.map Prod.fst ++ [k] := by
  induction m with
  | nil => simp [show mapSet [] k v = [(k, v)] from rfl]
  | cons e t ih =>
    have he : ¬ e.1 = k := by
      intro hek
      exact h (by simp [hek])
    rw [show mapSet (e :: t) k v
        = if e.1 = k then (k, v) :: t else e :: mapSet t k v from rfl,
      if_neg he, List.map_cons, List.map_cons, List.cons_append,
      ih (by intro h2; exact h (by simpa using Or.inr h2))]

/-- `posSet` never changes the key list. -/
theorem posSet_keys (m : List (String × (NodeData × Option (ℕ × ℕ))))
    (id : String) (rc : ℕ × ℕ) :
    (posSet m id rc).map Prod.fst = m.map Prod.fst := by
  induction m with
  | nil => rfl
  | cons e t ih =>
    by_cases he : e.1 = id
    · rw [show posSet (e :: t) id rc
          = if e.1 = id then (e.1, (e.2.1, some rc)) :: t else e :: posSet t id rc from rfl,
        if_pos he]
      simp
    · rw [show posSet (e :: t) id rc
          = if e.1 = id then (e.1, (e.2.1, some rc)) :: t else e :: posSet t id rc from rfl,
        if_neg he, List.map_cons, List.map_cons, ih]

/-- Looking up the re-positioned key. -/
theorem mapFind_posSet_self (m : List (String × (NodeData × Option (ℕ × ℕ))))
    (id : String) (rc : ℕ × ℕ) {nd : NodeData} {p : Option (ℕ × ℕ)}
    (h : mapFind m id = some (nd, p)) :
    mapFind (posSet m id rc) id = some (nd, some rc) := by
  induction m with
  | nil => simp [mapFind, List.find?] at h
  | cons e t ih =>
    by_cases he : e.1 = id
    · rw [mapFind_cons, if_pos he] at h
      obtain he2 : e.2 = (nd, p) := by injection h
      rw [show posSet (e :: t) id rc
          = if e.1 = id then (e.1, (e.2.1, some rc)) :: t else e :: posSet t id rc from rfl,
        if_pos he, mapFind_cons, if_pos he, he2]
    · rw [mapFind_cons, if_neg he] at h
      rw [show posSet (e :: t) id rc
          = if e.1 = id then (e.1, (e.2.1, some rc)) :: t else e :: posSet t id rc from rfl,
        if_neg he, mapFind_cons, if_neg he]
      exact ih h

/-- Looking up another key after a re-position. -/
theorem mapFind_posSet_ne (m : List (String × (NodeData × Option (ℕ × ℕ))))
    (id id2 : String) (rc : ℕ × ℕ) (hne : ¬ id2 = id) :
    mapFind (posSet m id rc) id2 = mapFind m id2 := by
  induction m with
  | nil => rfl
  | cons e t ih =>
    by_cases he : e.1 = id
    · rw [show posSet (e :: t) id rc
          = if e.1 = id then (e.1, (e.2.1, some rc)) :: t else e :: posSet t id rc from rfl,
        if_pos he, mapFind_cons, mapFind_cons,
        if_neg (he ▸ fun h => hne h.symm), if_neg (fun h : e.1 = id2 => hne (he ▸ h.symm))]
    · rw [show posSet (e :: t) id rc
          = if e.1 = id then (e.1, (e.2.1, some rc)) :: t else e :: posSet t id rc from rfl,
        if_neg he, mapFind_cons, mapFind_cons]
      by_cases he2 : e.1 = id2
      · rw [if_pos he2, if_pos he2]
      · rw [if_neg he2, if_neg he2]
        exact ih

/-- A found key is in the key list. -/
theorem mem_keys_of_mapFind {α : Type} (m : List (String × α)) (k : String)
    {v : α} (h : mapFind m k = some v) : k ∈ m.map Prod.fst := by
  induction m with
  | nil => simp [mapFind, List.find?] at h
  | cons e t ih =>
    by_cases he : e.1 = k
    · simp [he]
    · rw [mapFind_cons, if_neg he] at h
      exact List.mem_cons_of_mem _ (ih h)

/-- A key in the key list is found. -/
theorem mapFind_isSome_of_mem_keys {α : Type} (m : List (String × α))
    (k : String) (h : k ∈ m.map Prod.fst) : (mapFind m k).isSome := by
  induction m with
  | nil => simp at h
  | cons e t ih =>
    by_cases he : e.1 = k
    · rw [mapFind_cons, if_pos he]
      rfl
    · rw [List.map_cons] at h
      rcases List.mem_cons.mp h with h1 | h1
      · exact absurd h1.symm he
      · rw [mapFind_cons, if_neg he]
        exact ih h1

/-- With unique keys, every entry is what lookup returns for its key. -/
theorem mapFind_of_mem_nodup {α : Type} (m : List (String × α))
    (hnd : (m.map Prod.fst).Nodup) (e : String × α) (he : e ∈ m) :
    mapFind m e.1 = some e.2 := by
  induction m with
  | nil => simp at he
  | cons e0 t ih =>
    rcases List.mem_cons.mp he with rfl | h1
    · rw [mapFind_cons, if_pos rfl]
    · have hne : ¬ e0.1 = e.1 := by
        intro hek
        have : e.1 ∈ t.map Prod.fst := List.mem_map.mpr ⟨e, h1, rfl⟩
        rw [List.map_cons, List.nodup_cons] at hnd
        exact hnd.1 (hek ▸ this)
      rw [mapFind_cons, if_neg hne]
      exact ih (by rw [List.map_cons, List.nodup_cons] at hnd; exact hnd.2) h1

/-- Membership after a set-insert. -/
theorem mem_placedInsert {p : List String} {id x : String} :
    x ∈ placedInsert p id ↔ x = id ∨ x ∈ p := by
  unfold placedInsert
  split_ifs with h
  · constructor
    · exact fun hx => Or.inr hx
    · rintro (rfl | hx)
      · exact h
      · exact hx
  · exact List.mem_cons

/-- Inserting a fresh id conses it. -/
theorem placedInsert_of_not_mem {p : List String} {id : String}
    (h : ¬ id ∈ p) : placedInsert p id = id :: p := by
  unfold placedInsert
  rw [if_neg h]

/-- Placing an unassigned id into an empty in-bounds cell preserves the
placement invariant, assigns exactly that id, keeps all other entries,
and conses the id onto the placed set. -/
theorem placeCell_spec (nodes : List NodeData) (rows cols : ℕ)
    (st : ArrangeState) (hInv : ArrangeInv nodes rows cols st) (id : String)
    (nd : NodeData) (hfind : mapFind st.gpos id = some (nd, none))
    {r c : ℕ} (hr : r < rows) (hc : c < cols)
    (hempty : cellAt st.grid r c = some none) :
    ArrangeInv nodes rows cols (placeCell st id r c) ∧
    mapFind (placeCell st id r c).gpos id = some (nd, some (r, c)) ∧
    (∀ id2 v, mapFind st.gpos id2 = some v → ¬ id2 = id →
      mapFind (placeCell st id r c).gpos id2 = some v) ∧
    (placeCell st id r c).placed = id :: st.placed := by
  have hid_not_placed : ¬ id ∈ st.placed := by
    rw [hInv.placed_iff]
    rintro ⟨nd2, rc2, hfind2⟩
    rw [hfind] at hfind2
    obtain h3 : (nd, (none : Option (ℕ × ℕ))) = (nd2, some rc2) := by injection hfind2
    exact absurd (congrArg Prod.snd h3) (by simp)
  have hplaced : (placeCell st id r c).placed = id :: st.placed := by
    simp only [placeCell]
    rw [placedInsert_of_not_mem hid_not_placed]
  have hself : mapFind (placeCell st id r c).gpos id = some (nd, some (r, c)) :=
    mapFind_posSet_self st.gpos id (r, c) hfind
  have hothers : ∀ id2 v, mapFind st.gpos id2 = some v → ¬ id2 = id →
      mapFind (placeCell st id r c).gpos id2 = some v := by
    intro id2 v hv h2
    simp only [placeCell]
    rw [mapFind_posSet_ne st.gpos id id2 (r, c) h2]
    exact hv
  refine ⟨⟨?_, ?_, ?_, ?_, ?_, ?_, ?_⟩, hself, hothers, hplaced⟩
  · exact gridShape_gridSet hInv.shape r c id
  · simp only [placeCell]
    rw [posSet_keys]
    exact hInv.keys
  · intro id2 nd2 r2 c2 hfind2
    by_cases h2 : id2 = id
    · subst h2
      rw [hself] at hfind2
      obtain h3 : (nd, some (r, c)) = (nd2, some (r2, c2)) := by injection hfind2
      obtain h4 : some (r, c) = some (r2, c2) := congrArg Prod.snd h3
      obtain h5 : (r, c) = (r2, c2) := by injection h4
      obtain ⟨rfl, rfl⟩ : r = r2 ∧ c = c2 := Prod.mk.injEq .. ▸ h5
      exact ⟨hr, hc, cellAt_gridSet_self hInv.shape hr hc id2⟩
    · simp only [placeCell] at hfind2
      rw [mapFind_posSet_ne st.gpos id id2 (r, c) h2] at hfind2
      obtain ⟨hb1, hb2, hcell⟩ := hInv.pos_grid id2 nd2 r2 c2 hfind2
      refine ⟨hb1, hb2, ?_⟩
      have hne : ¬ (r2 = r ∧ c2 = c) := by
        rintro ⟨rfl, rfl⟩
        rw [hcell] at hempty
        cases hempty
      simp only [placeCell]
      rw [cellAt_gridSet_ne r c id hne]
      exact hcell
  · intro r2 c2 id2 hr2 hc2 hcell2
    by_cases hrc : r2 = r ∧ c2 = c
    · obtain ⟨rfl, rfl⟩ := hrc
      have := cellAt_gridSet_self hInv.shape hr hc id
      simp only [placeCell] at hcell2
      rw [this] at hcell2
      obtain h3 : some id = some id2 := by injection hcell2
      obtain rfl : id = id2 := by injection h3
      exact ⟨nd, hself⟩
    · simp only [placeCell] at hcell2
      rw [cellAt_gridSet_ne r c id hrc] at hcell2
      obtain ⟨nd2, hfind2⟩ := hInv.grid_pos r2 c2 id2 hr2 hc2 hcell2
      have h2 : ¬ id2 = id := by
        rintro rfl
        rw [hfind] at hfind2
        obtain h3 : (nd, (none : Option (ℕ × ℕ))) = (nd2, some (r2, c2)) := by
          injection hfind2
        exact absurd (congrArg Prod.snd h3) (by simp)
      refine ⟨nd2, ?_⟩
      simp only [placeCell]
      rw [mapFind_posSet_ne st.gpos id id2 (r, c) h2]
      exact hfind2
  · intro id2
    rw [hplaced, List.mem_cons]
    by_cases h2 : id2 = id
    · subst h2
      exact iff_of_true (Or.inl rfl) ⟨nd, (r, c), hself⟩
    · rw [show mapFind (placeCell st id r c).gpos id2 = mapFind st.gpos id2 from by
        simp only [placeCell]; exact mapFind_posSet_ne st.gpos id id2 (r, c) h2]
      rw [← hInv.placed_iff id2]
      constructor
      · rintro (rfl | hmem)
        · exact absurd rfl h2
        · exact hmem
      · exact fun hmem => Or.inr hmem
  · rw [hplaced]
    exact List.nodup_cons.mpr ⟨hid_not_placed, hInv.placed_nodup⟩
  · have hfc : filledCount (placeCell st id r c).grid = filledCount st.grid + 1 :=
      filledCount_gridSet st.grid r c id hempty
    rw [hfc, hplaced, List.length_cons, hInv.count]

/-- The placement invariant ignores the shuffle counter. -/
theorem ArrangeInv_shuffleIdx (nodes : List NodeData) (rows cols : ℕ)
    (st : ArrangeState) (k : ℕ) (h : ArrangeInv nodes rows cols st) :
    ArrangeInv nodes rows cols { st with shuffleIdx := k } :=
  ⟨h.shape, h.keys, h.pos_grid, h.grid_pos, h.placed_iff, h.placed_nodup, h.count⟩

/-- One adjacent-neighbour placement attempt preserves the invariant,
keeps every other entry, and grows the placed set by at most the
neighbour id. -/
theorem neighborStep_spec (nodes : List NodeData) (rows cols : ℕ)
    (shuffles : ℕ → List (ℤ × ℤ)) (bestRow bestCol : ℕ) (st : ArrangeState)
    (neighborId : String) (hInv : ArrangeInv nodes rows cols st)
    (hnd : (nodes.map NodeData.id).Nodup)
    (hunplaced : ¬ neighborId ∈ st.placed) :
    ArrangeInv nodes rows cols
      (neighborStep nodes rows cols shuffles bestRow bestCol st neighborId) ∧
    (∀ id2 v, mapFind st.gpos id2 = some v → ¬ id2 = neighborId →
      mapFind (neighborStep nodes rows cols shuffles bestRow bestCol st neighborId).gpos id2
        = some v) ∧
    (∀ x, x ∈ (neighborStep nodes rows cols shuffles bestRow bestCol st neighborId).placed →
      x = neighborId ∨ x ∈ st.placed) := by
  unfold neighborStep
  rcases hfind : nodes.find? (fun n => n.id == neighborId) with _ | n
  · rw [hfind]
    exact ⟨hInv, fun id2 v hv _ => hv, fun x hx => Or.inr hx⟩
  · rw [hfind]
    simp only []
    have hnid : n.id = neighborId := by
      have := List.find?_some hfind
      simpa using this
    have hnmem : n ∈ nodes := List.mem_of_find?_eq_some hfind
    have hkey : neighborId ∈ st.gpos.map Prod.fst := by
      rw [hInv.keys]
      exact List.mem_map.mpr ⟨n, hnmem, hnid⟩
    have hsome := mapFind_isSome_of_mem_keys st.gpos neighborId hkey
    obtain ⟨⟨nd, p⟩, hval⟩ := Option.isSome_iff_exists.mp hsome
    have hpnone : p = none := by
      rcases p with _ | rc
      · rfl
      · exact absurd ((hInv.placed_iff neighborId).mpr ⟨nd, rc, hval⟩) hunplaced
    subst hpnone
    rcases hoff : (shuffles st.shuffleIdx).find? (fun o =>
        decide (0 ≤ (bestRow : ℤ) + o.1 ∧ (bestRow : ℤ) + o.1 < (rows : ℤ) ∧
          0 ≤ (bestCol : ℤ) + o.2 ∧ (bestCol : ℤ) + o.2 < (cols : ℤ) ∧
          cellAt st.grid ((bestRow : ℤ) + o.1).toNat ((bestCol : ℤ) + o.2).toNat
            = some none)) with _ | o
    · rw [hoff]
      exact ⟨ArrangeInv_shuffleIdx nodes rows cols st _ hInv,
        fun id2 v hv _ => hv, fun x hx => Or.inr hx⟩
    · rw [hoff]
      have hcond := List.find?_some hoff
      simp only [decide_eq_true_eq] at hcond
      obtain ⟨hb1, hb2, hb3, hb4, hcell⟩ := hcond
      have hr : ((bestRow : ℤ) + o.1).toNat < rows := by omega
      have hc : ((bestCol : ℤ) + o.2).toNat < cols := by omega
      have hspec := placeCell_spec nodes rows cols
        { st with shuffleIdx := st.shuffleIdx + 1 }
        (ArrangeInv_shuffleIdx nodes rows cols st _ hInv) neighborId nd hval
        hr hc hcell
      refine ⟨hspec.1, ?_, ?_⟩
      · intro id2 v hv h2
        exact hspec.2.2.1 id2 v hv h2
      · intro x hx
        rw [hspec.2.2.2, List.mem_cons] at hx
        exact hx

/-- Folding the neighbour placements over a duplicate-free list of
currently unplaced neighbours preserves the invariant, keeps every entry
of an id outside the list, and only ever places ids from the list. -/
theorem neighborFold_spec (nodes : List NodeData) (rows cols : ℕ)
    (shuffles : ℕ → List (ℤ × ℤ)) (bestRow bestCol : ℕ)
    (L : List String) (st : ArrangeState)
    (hInv : ArrangeInv nodes rows cols st)
    (hnd : (nodes.map NodeData.id).Nodup)
    (hL : ∀ x ∈ L, ¬ x ∈ st.placed) (hLnd : L.Nodup) :
    ArrangeInv nodes rows cols
      (L.foldl (neighborStep nodes rows cols shuffles bestRow bestCol) st) ∧
    (∀ id2 v, mapFind st.gpos id2 = some v → ¬ id2 ∈ L →
      mapFind (L.foldl (neighborStep nodes rows cols shuffles bestRow bestCol) st).gpos id2
        = some v) ∧
    (∀ x, x ∈ (L.foldl (neighborStep nodes rows cols shuffles bestRow bestCol) st).placed →
      x ∈ L ∨ x ∈ st.placed) := by
  induction L generalizing st with
  | nil => exact ⟨hInv, fun id2 v hv _ => hv, fun x hx => Or.inr hx⟩
  | cons x L ih =>
    rw [List.foldl_cons]
    have hx := hL x (List.mem_cons_self ..)
    have hstep := neighborStep_spec nodes rows cols shuffles bestRow bestCol st x
      hInv hnd hx
    have hLtail : ∀ y ∈ L, ¬ y ∈ (neighborStep nodes rows cols shuffles bestRow bestCol st x).placed := by
      intro y hy hmem
      rcases hstep.2.2 y hmem with rfl | hmem2
      · exact (List.nodup_cons.mp hLnd).1 hy
      · exact hL y (List.mem_cons_of_mem _ hy) hmem2
    have hrec := ih _ hstep.1 hLtail (List.nodup_cons.mp hLnd).2
    refine ⟨hrec.1, ?_, ?_⟩
    · intro id2 v hv h2
      have h2x : ¬ id2 = x := fun hne => h2 (hne ▸ List.mem_cons_self ..)
      have h2L : ¬ id2 ∈ L := fun hne => h2 (List.mem_cons_of_mem _ hne)
      exact hrec.2.1 id2 v (hstep.2.1 id2 v hv h2x) h2L
    · intro y hy
      rcases hrec.2.2 y hy with h1 | h1
      · exact Or.inl (List.mem_cons_of_mem _ h1)
      · rcases hstep.2.2 y h1 with rfl | h2
        · exact Or.inl (List.mem_cons_self ..)
        · exact Or.inr h2

/-! ### Adjacency-map counting -/

/-- Lookup in a concatenation when the key is absent on the left. -/
theorem mapFind_append_right {α : Type} (m m2 : List (String × α)) (a : String)
    (h : mapFind m a = none) : mapFind (m ++ m2) a = mapFind m2 a := by
  induction m with
  | nil => rfl
  | cons e t ih =>
    rw [mapFind_cons] at h
    by_cases he : e.1 = a
    · rw [if_pos he] at h
      cases h
    · rw [if_neg he] at h
      rw [List.cons_append, mapFind_cons, if_neg he]
      exact ih h

/-- Lookup in a concatenation when the key is present on the left. -/
theorem mapFind_append_left {α : Type} (m m2 : List (String × α)) (a : String)
    {v : α} (h : mapFind m a = some v) : mapFind (m ++ m2) a = some v := by
  induction m with
  | nil => cases h
  | cons e t ih =>
    rw [mapFind_cons] at h
    rw [List.cons_append, mapFind_cons]
    by_cases he : e.1 = a
    · rw [if_pos he] at h ⊢
      exact h
    · rw [if_neg he] at h ⊢
      exact ih h

/-- The key-ensuring step of the adjacency construction does not change
any neighbour count. -/
theorem ensure_count (m : List (String × List String)) (k a b : String) :
    List.count b ((mapFind (m ++ [(k, [])]) a).getD [])
      = List.count b ((mapFind m a).getD []) := by
  rcases hfind : mapFind m a with _ | l
  · rw [mapFind_append_right m _ a hfind, mapFind_cons]
    by_cases hk : k = a
    · rw [if_pos hk]
      rfl
    · rw [if_neg hk]
      rfl
  · rw [mapFind_append_left m _ a hfind]

/-- Pushing onto a key other than the looked-up one changes nothing. -/
theorem mapFind_adjPush_ne (m : List (String × List String)) (k v a : String)
    (h : ¬ k = a) : mapFind (adjPush m k v) a = mapFind m a := by
  induction m with
  | nil => rfl
  | cons e t ih =>
    by_cases he : e.1 = k
    · have hne : ¬ e.1 = a := fun h2 => h (he ▸ h2)
      rw [show adjPush (e :: t) k v
          = if e.1 = k then (e.1, e.2 ++ [v]) :: t else e :: adjPush t k v from rfl,
        if_pos he, mapFind_cons, mapFind_cons]
      simp only []
      rw [if_neg hne, if_neg hne]
    · rw [show adjPush (e :: t) k v
          = if e.1 = k then (e.1, e.2 ++ [v]) :: t else e :: adjPush t k v from rfl,
        if_neg he, mapFind_cons, mapFind_cons]
      by_cases he2 : e.1 = a
      · rw [if_pos he2, if_pos he2]
      · rw [if_neg he2, if_neg he2]
        exact ih

/-- Pushing onto a present key appends to its neighbour list. -/
theorem mapFind_adjPush_self (m : List (String × List String)) (k v : String)
    {l : List String} (h : mapFind m k = some l) :
    mapFind (adjPush m k v) k = some (l ++ [v]) := by
  induction m with
  | nil => cases h
  | cons e t ih =>
    rw [mapFind_cons] at h
    by_cases he : e.1 = k
    · rw [if_pos he] at h
      obtain rfl : e.2 = l := by injection h
      rw [show adjPush (e :: t) k v
          = if e.1 = k then (e.1, e.2 ++ [v]) :: t else e :: adjPush t k v from rfl,
        if_pos he, mapFind_cons, if_pos he]
    · rw [if_neg he] at h
      rw [show adjPush (e :: t) k v
          = if e.1 = k then (e.1, e.2 ++ [v]) :: t else e :: adjPush t k v from rfl,
        if_neg he, mapFind_cons, if_neg he]
      exact ih h

/-- Ensuring a key makes it present. -/
theorem ensure_isSome (m : List (String × List String)) (k : String) :
    (mapFind (if (mapFind m k).isSome then m else m ++ [(k, [])]) k).isSome := by
  split_ifs with h
  · exact h
  · rcases hfind : mapFind m k with _ | l
    · rw [mapFind_append_right m _ k hfind, mapFind_cons, if_pos rfl]
      rfl
    · rw [mapFind_append_left m _ k hfind]
      rfl

/-- Ensuring a key never changes neighbour counts. -/
theorem ensure_count_if (m : List (String × List String)) (k a b : String) :
    List.count b ((mapFind (if (mapFind m k).isSome then m else m ++ [(k, [])]) a).getD [])
      = List.count b ((mapFind m a).getD []) := by
  split_ifs with h
  · rfl
  · exact ensure_count m k a b

/-- One adjacency step adds one occurrence of `b` to the neighbour list
of `a` exactly when the connection joins `a` and `b` (for `b ≠ a`). -/
theorem adjStep_count (m : List (String × List String)) (conn : Connection)
    (a b : String) (hab : ¬ b = a) :
    List.count b ((mapFind (adjStep m conn) a).getD [])
      = List.count b ((mapFind m a).getD [])
        + (if (conn.fromEnd.nodeId = a ∧ conn.toEnd.nodeId = b) ∨
            (conn.fromEnd.nodeId = b ∧ conn.toEnd.nodeId = a) then 1 else 0) := by
  unfold adjStep
  simp only []
  set F := conn.fromEnd.nodeId with hF
  set T := conn.toEnd.nodeId with hT
  set m1 := if (mapFind m F).isSome then m else m ++ [(F, [])] with hm1
  set m2 := if (mapFind m1 T).isSome then m1 else m1 ++ [(T, [])] with hm2
  have hFsome : (mapFind m2 F).isSome := by
    rw [hm2]
    split_ifs with h2
    · rw [hm1]
      exact ensure_isSome m F
    · rcases hfind : mapFind m1 F with _ | l
      · exfalso
        have := ensure_isSome m F
        rw [← hm1] at this
        rw [hfind] at this
        cases this
      · rw [mapFind_append_left m1 _ F hfind]
        rfl
  have hTsome : (mapFind m2 T).isSome := by
    rw [hm2]
    exact ensure_isSome m1 T
  have hcount2 : ∀ x, List.count x ((mapFind m2 a).getD [])
      = List.count x ((mapFind m a).getD []) := by
    intro x
    rw [hm2, hm1]
    rw [ensure_count_if m1 T a x, hm1, ensure_count_if m F a x]
  obtain ⟨lF, hlF⟩ := Option.isSome_iff_exists.mp hFsome
  obtain ⟨lT, hlT⟩ := Option.isSome_iff_exists.mp hTsome
  by_cases hFa : F = a
  · subst hFa
    have hm3F : mapFind (adjPush m2 F T) F = some (lF ++ [T]) :=
      mapFind_adjPush_self m2 F T hlF
    by_cases hTF : T = F
    · -- self loop relative to a: second push also hits a, but then b ≠ T = F = a
      rw [hTF] at hm3F ⊢
      have hm4 : mapFind (adjPush (adjPush m2 F F) F F) F
          = some (lF ++ [F] ++ [F]) := mapFind_adjPush_self _ F F hm3F
      rw [hm4]
      simp only [Option.getD_some]
      have hc := hcount2 b
      rw [hlF] at hc
      simp only [Option.getD_some] at hc
      have hFb : ¬ F = b := fun h2 => hab h2.symm
      simp only [List.count_append, List.count_cons, List.count_nil, beq_iff_eq]
      rw [if_neg hFb]
      rw [if_neg (by
        rintro (⟨-, h2⟩ | ⟨h2, -⟩) <;> exact hFb h2)]
      omega
    · have hm4 : mapFind (adjPush (adjPush m2 F T) T F) F = some (lF ++ [T]) := by
        rw [mapFind_adjPush_ne _ T F F hTF]
        exact hm3F
      rw [hm4]
      simp only [Option.getD_some]
      have hc := hcount2 b
      rw [hlF] at hc
      simp only [Option.getD_some] at hc
      simp only [List.count_append, List.count_cons, List.count_nil, beq_iff_eq]
      by_cases hTb : T = b
      · rw [if_pos hTb, if_pos (Or.inl ⟨trivial, hTb⟩)]
        omega
      · rw [if_neg hTb, if_neg (by
          rintro (⟨-, h2⟩ | ⟨h2, -⟩)
          · exact hTb h2
          · exact hab h2.symm)]
        omega
  · have hm3a : mapFind (adjPush m2 F T) a = mapFind m2 a :=
      mapFind_adjPush_ne m2 F T a hFa
    by_cases hTa : T = a
    · subst hTa
      have hlT3 : mapFind (adjPush m2 F T) T = some lT := by
        rw [mapFind_adjPush_ne m2 F T T (fun h2 => hFa h2)]
        exact hlT
      have hm4 : mapFind (adjPush (adjPush m2 F T) T F) T = some (lT ++ [F]) :=
        mapFind_adjPush_self _ T F hlT3
      rw [hm4]
      simp only [Option.getD_some]
      have hc := hcount2 b
      rw [hlT] at hc
      simp only [Option.getD_some] at hc
      simp only [List.count_append, List.count_cons, List.count_nil, beq_iff_eq]
      by_cases hFb : F = b
      · rw [if_pos hFb, if_pos (Or.inr ⟨hFb, trivial⟩)]
        omega
      · rw [if_neg hFb, if_neg (by
          rintro (⟨-, h2⟩ | ⟨h2, -⟩)
          · exact hab h2.symm
          · exact hFb h2)]
        omega
    · have hm4 : mapFind (adjPush (adjPush m2 F T) T F) a = mapFind m2 a := by
        rw [mapFind_adjPush_ne _ T F a hTa]
        exact hm3a
      rw [hm4]
      have hiff : ¬ ((F = a ∧ T = b) ∨ (F = b ∧ T = a)) := by
        rintro (⟨h2, -⟩ | ⟨-, h2⟩)
        · exact hFa h2
        · exact hTa h2
      rw [if_neg hiff]
      rw [hcount2 b]
      omega

/-- Folding the adjacency construction counts exactly the connections
joining the two ids. -/
theorem adjFold_count (conns : List Connection)
    (m : List (String × List String)) (a b : String) (hab : ¬ b = a) :
    List.count b ((mapFind (conns.foldl adjStep m) a).getD [])
      = List.count b ((mapFind m a).getD [])
        + (conns.filter (fun c => decide ((c.fromEnd.nodeId = a ∧ c.toEnd.nodeId = b) ∨
            (c.fromEnd.nodeId = b ∧ c.toEnd.nodeId = a)))).length := by
  induction conns generalizing m with
  | nil => simp
  | cons c t ih =>
    rw [List.foldl_cons, ih (adjStep m c), adjStep_count m c a b hab,
      List.filter_cons]
    by_cases hc : (c.fromEnd.nodeId = a ∧ c.toEnd.nodeId = b) ∨
        (c.fromEnd.nodeId = b ∧ c.toEnd.nodeId = a)
    · rw [if_pos hc, if_pos (by simpa using hc)]
      simp only [List.length_cons]
      omega
    · rw [if_neg hc, if_neg (by simpa using hc)]
      omega

/-- A filter whose members all share one key value keeps at most one
element of a key-duplicate-free list. -/
theorem length_filter_le_one {α β : Type} (l : List α) (p : α → Bool)
    (key : α → β) (K : β) (hkey : ∀ c ∈ l, p c = true → key c = K)
    (hnd : (l.map key).Nodup) : (l.filter p).length ≤ 1 := by
  induction l with
  | nil => simp
  | cons c t ih =>
    rw [List.map_cons, List.nodup_cons] at hnd
    by_cases hc : p c = true
    · rw [List.filter_cons_of_pos hc]
      have ht : t.filter p = [] := by
        rw [List.filter_eq_nil_iff]
        intro x hx hpx
        have hkx : key x = K := hkey x (List.mem_cons_of_mem _ hx) hpx
        have hkc : key c = K := hkey c (List.mem_cons_self ..) hc
        exact hnd.1 (by rw [hkc, ← hkx]; exact List.mem_map.mpr ⟨x, hx, rfl⟩)
      rw [ht]
      simp
    · rw [List.filter_cons_of_neg (by simpa using hc)]
      exact ih (fun x hx hpx => hkey x (List.mem_cons_of_mem _ hx) hpx) hnd.2

/-- Any connection joining the unordered pair `{a, b}` has the normalized
key of that pair. -/
theorem connKey_of_pair (c : Connection) (a b : String)
    (h : (c.fromEnd.nodeId = a ∧ c.toEnd.nodeId = b) ∨
      (c.fromEnd.nodeId = b ∧ c.toEnd.nodeId = a)) :
    connKey c = if a ≤ b then (a, b) else (b, a) := by
  unfold connKey
  rcases h with ⟨h1, h2⟩ | ⟨h1, h2⟩
  · rw [h1, h2]
  · rw [h1, h2]
    by_cases hab2 : a ≤ b <;> by_cases hba : b ≤ a
    · obtain rfl : a = b := le_antisymm hab2 hba
      simp
    · rw [if_neg hba, if_pos hab2]
    · rw [if_pos hba, if_neg hab2]
    · rcases le_total a b with h3 | h3
      · exact absurd h3 hab2
      · exact absurd h3 hba

/-- With no two connections joining the same unordered pair, every
neighbour list holds any given other id at most once. -/
theorem buildAdjList_count_le_one (conns : List Connection)
    (hpairs : (conns.map connKey).Nodup) (a b : String) (hab : ¬ b = a) :
    List.count b ((mapFind (buildAdjList conns) a).getD []) ≤ 1 := by
  unfold buildAdjList
  rw [adjFold_count conns [] a b hab]
  have h0 : List.count b ((mapFind ([] : List (String × List String)) a).getD []) = 0 := rfl
  rw [h0]
  have := length_filter_le_one conns
    (fun c => decide ((c.fromEnd.nodeId = a ∧ c.toEnd.nodeId = b) ∨
      (c.fromEnd.nodeId = b ∧ c.toEnd.nodeId = a)))
    connKey (if a ≤ b then (a, b) else (b, a))
    (fun c _ hpc => connKey_of_pair c a b (by simpa using hpc)) hpairs
  omega

/-! ### The greedy main pass -/

/-- One greedy-pass step preserves the placement invariant, never
unplaces an id, and leaves the visited node placed (under the capacity
bound and the at-most-one-adjacency hypothesis). -/
theorem mainStep_spec (nodes : List NodeData) (adjList : List (String × List String))
    (rows cols : ℕ) (shuffles : ℕ → List (ℤ × ℤ)) (st : ArrangeState)
    (node : NodeData) (hInv : ArrangeInv nodes rows cols st)
    (hnd : (nodes.map NodeData.id).Nodup) (hmem : node ∈ nodes)
    (hcap : nodes.length ≤ rows * cols)
    (hadj : ∀ b, ¬ b = node.id → List.count b ((mapFind adjList node.id).getD []) ≤ 1) :
    ArrangeInv nodes rows cols (mainStep nodes adjList rows cols shuffles st node) ∧
    (∀ x, x ∈ st.placed → x ∈ (mainStep nodes adjList rows cols shuffles st node).placed) ∧
    node.id ∈ (mainStep nodes adjList rows cols shuffles st node).placed := by
  unfold mainStep
  by_cases hp : node.id ∈ st.placed
  · rw [if_pos hp]
    exact ⟨hInv, fun x hx => hx, hp⟩
  · rw [if_neg hp]
    have hkeymem : node.id ∈ st.gpos.map Prod.fst := by
      rw [hInv.keys]
      exact List.mem_map.mpr ⟨node, hmem, rfl⟩
    obtain ⟨⟨nd, p⟩, hval⟩ :=
      Option.isSome_iff_exists.mp (mapFind_isSome_of_mem_keys st.gpos node.id hkeymem)
    have hpnone : p = none := by
      rcases p with _ | rc
      · rfl
      · exact absurd ((hInv.placed_iff node.id).mpr ⟨nd, rc, hval⟩) hp
    subst hpnone
    have hsub : ∀ x ∈ node.id :: st.placed, x ∈ nodes.map NodeData.id := by
      intro x hx
      rcases List.mem_cons.mp hx with rfl | hx2
      · exact List.mem_map.mpr ⟨node, hmem, rfl⟩
      · obtain ⟨nd2, rc2, hfind2⟩ := (hInv.placed_iff x).mp hx2
        have := mem_keys_of_mapFind st.gpos x hfind2
        rwa [hInv.keys] at this
    have hndcons : (node.id :: st.placed).Nodup :=
      List.nodup_cons.mpr ⟨hp, hInv.placed_nodup⟩
    have hlen : st.placed.length + 1 ≤ nodes.length := by
      have hsp := (hndcons.subperm (fun x hx => hsub x hx)).length_le
      simpa using hsp
    have hfill : filledCount st.grid < rows * cols := by
      rw [hInv.count]
      omega
    have hex := exists_empty_cell st.grid rows cols hInv.shape hfill
    rcases hbc : findBestCell st.grid rows cols (mainTargetRow nodes rows node)
        (mainTargetCol nodes cols node) with _ | ⟨bestRow, bestCol⟩
    · exfalso
      have hsome := findBestCell_isSome st.grid rows cols
        (mainTargetRow nodes rows node) (mainTargetCol nodes cols node) hex
      rw [hbc] at hsome
      simp at hsome
    · have hrc := findBestCell_some_spec st.grid rows cols
        (mainTargetRow nodes rows node) (mainTargetCol nodes cols node) hbc
      have hr : bestRow < rows := hrc.1
      have hc : bestCol < cols := hrc.2.1
      have hcell : cellAt st.grid bestRow bestCol = some none := hrc.2.2
      have hplace := placeCell_spec nodes rows cols st hInv node.id nd hval hr hc hcell
      have hLunplaced : ∀ x ∈ (((mapFind adjList node.id).getD []).filter
          (fun nid => ¬ nid ∈ (placeCell st node.id bestRow bestCol).placed)),
          ¬ x ∈ (placeCell st node.id bestRow bestCol).placed := by
        intro x hx
        rw [List.mem_filter] at hx
        simpa using hx.2
      have hidp : node.id ∈ (placeCell st node.id bestRow bestCol).placed := by
        rw [hplace.2.2.2]
        exact List.mem_cons_self ..
      have hLnd : (((mapFind adjList node.id).getD []).filter
          (fun nid => ¬ nid ∈ (placeCell st node.id bestRow bestCol).placed)).Nodup := by
        rw [List.nodup_iff_count_le_one]
        intro x
        by_cases hxid : x = node.id
        · subst hxid
          have hmemL : ¬ node.id ∈ (((mapFind adjList node.id).getD []).filter
              (fun nid => ¬ nid ∈ (placeCell st node.id bestRow bestCol).placed)) :=
            fun hxL => hLunplaced node.id hxL hidp
          rw [List.count_eq_zero.mpr hmemL]
          omega
        · calc List.count x (((mapFind adjList node.id).getD []).filter
              (fun nid => ¬ nid ∈ (placeCell st node.id bestRow bestCol).placed))
              ≤ List.count x ((mapFind adjList node.id).getD []) :=
                (List.filter_sublist _).count_le x
            _ ≤ 1 := hadj x hxid
      have hfold := neighborFold_spec nodes rows cols shuffles bestRow bestCol
        _ _ hplace.1 hnd hLunplaced hLnd
      refine ⟨hfold.1, ?_, ?_⟩
      · intro x hx
        have hx1 : x ∈ (placeCell st node.id bestRow bestCol).placed := by
          rw [hplace.2.2.2]
          exact List.mem_cons_of_mem _ hx
        obtain ⟨nd2, rc2, hfind2⟩ := (hplace.1.placed_iff x).mp hx1
        have hxnotL : ¬ x ∈ (((mapFind adjList node.id).getD []).filter
            (fun nid => ¬ nid ∈ (placeCell st node.id bestRow bestCol).placed)) :=
          fun hxL => hLunplaced x hxL hx1
        have hkeep := hfold.2.1 x (nd2, some rc2) hfind2 hxnotL
        exact (hfold.1.placed_iff x).mpr ⟨nd2, rc2, hkeep⟩
      · have hxnotL : ¬ node.id ∈ (((mapFind adjList node.id).getD []).filter
            (fun nid => ¬ nid ∈ (placeCell st node.id bestRow bestCol).placed)) :=
          fun hxL => hLunplaced node.id hxL hidp
        have hkeep := hfold.2.1 node.id (nd, some (bestRow, bestCol)) hplace.2.1 hxnotL
        exact (hfold.1.placed_iff node.id).mpr ⟨nd, (bestRow, bestCol), hkeep⟩

/-- The grid always has room for every node:
`rows * cols = max(1, ceil(n / cols)) * cols ≥ n`. -/
theorem arrange_capacity (nodes : List NodeData) :
    nodes.length ≤ arrangeRows nodes * arrangeCols nodes := by
  set C := arrangeCols nodes with hCdef
  have hC1 : 1 ≤ C := by
    rw [hCdef]
    unfold arrangeCols
    have h := le_max_left (1 : ℤ) (round (jsqrt ((nodes.length : ℚ) * arrangeAspect nodes)))
    omega
  set n := nodes.length with hn
  have hCpos : (0 : ℚ) < (C : ℚ) := by exact_mod_cast hC1
  have hceil : (n : ℚ) ≤ (⌈(n : ℚ) / (C : ℚ)⌉ : ℚ) * (C : ℚ) := by
    have h1 : ((n : ℚ) / (C : ℚ)) ≤ (⌈(n : ℚ) / (C : ℚ)⌉ : ℚ) := Int.le_ceil _
    calc (n : ℚ) = (n : ℚ) / (C : ℚ) * (C : ℚ) := by field_simp
    _ ≤ _ := mul_le_mul_of_nonneg_right h1 hCpos.le
  have hZ : (n : ℤ) ≤ ⌈(n : ℚ) / (C : ℚ)⌉ * (C : ℤ) := by exact_mod_cast hceil
  have hmax : ⌈(n : ℚ) / (C : ℚ)⌉ ≤ max 1 ⌈(n : ℚ) / (C : ℚ)⌉ := le_max_right _ _
  have hZ2 : (n : ℤ) ≤ max 1 ⌈(n : ℚ) / (C : ℚ)⌉ * (C : ℤ) :=
    le_trans hZ (mul_le_mul_of_nonneg_right hmax (by positivity))
  have h0 : (0 : ℤ) ≤ max 1 ⌈(n : ℚ) / (C : ℚ)⌉ := le_trans (by omega) (le_max_left _ _)
  have htn : ((max 1 ⌈(n : ℚ) / (C : ℚ)⌉).toNat : ℤ) = max 1 ⌈(n : ℚ) / (C : ℚ)⌉ :=
    Int.toNat_of_nonneg h0
  have : (n : ℤ) ≤ ((max 1 ⌈(n : ℚ) / (C : ℚ)⌉).toNat * C : ℕ) := by
    push_cast
    rw [htn]
    exact hZ2
  have hfin : n ≤ (max 1 ⌈(n : ℚ) / (C : ℚ)⌉).toNat * C := by exact_mod_cast this
  unfold arrangeRows
  rw [← hCdef, ← hn]
  exact hfin

/-- `Map.set` with a fresh key appends the entry. -/
theorem mapSet_append_new2 {α : Type} (m : List (String × α)) (k : String) (v : α)
    (h : ¬ k ∈ m.map Prod.fst) : mapSet m k v = m ++ [(k, v)] := by
  induction m with
  | nil => rfl
  | cons e t ih =>
    rw [List.map_cons] at h
    have h1 : ¬ e.1 = k := fun h2 => h (List.mem_cons.mpr (Or.inl h2.symm))
    rw [show mapSet (e :: t) k v = if e.1 = k then (k, v) :: t else e :: mapSet t k v from rfl,
      if_neg h1, ih (fun h2 => h (List.mem_cons_of_mem _ h2)), List.cons_append]

/-- Building `nodesWithGridPos` from fresh, duplicate-free ids appends
one unassigned entry per node. -/
theorem init_entries (ns : List NodeData)
    (m : List (String × (NodeData × Option (ℕ × ℕ))))
    (hfresh : ∀ n ∈ ns, ¬ n.id ∈ m.map Prod.fst)
    (hnd : (ns.map NodeData.id).Nodup) :
    ns.foldl (fun m n => mapSet m n.id (n, (none : Option (ℕ × ℕ)))) m
      = m ++ ns.map (fun n => (n.id, (n, none))) := by
  induction ns generalizing m with
  | nil => simp
  | cons n t ih =>
    rw [List.map_cons, List.nodup_cons] at hnd
    have hfresh2 : ∀ n2 ∈ t,
        ¬ n2.id ∈ (m ++ [(n.id, (n, (none : Option (ℕ × ℕ))))]).map Prod.fst := by
      intro n2 hn2
      rw [List.map_append]
      intro hmem
      rcases List.mem_append.mp hmem with h1 | h1
      · exact hfresh n2 (List.mem_cons_of_mem _ hn2) h1
      · have h2 : n2.id = n.id := by simpa using h1
        exact hnd.1 (h2 ▸ List.mem_map.mpr ⟨n2, hn2, rfl⟩)
    rw [List.foldl_cons,
      mapSet_append_new2 m n.id (n, none) (hfresh n (List.mem_cons_self ..)),
      ih _ hfresh2 hnd.2, List.map_cons, List.append_assoc]
    rfl

/-- Every value of the initial `nodesWithGridPos` map is unassigned. -/
theorem init_values (nodes : List NodeData) (k : String)
    (v : NodeData × Option (ℕ × ℕ))
    (h : mapFind (nodes.map (fun n => (n.id, (n, (none : Option (ℕ × ℕ)))))) k
      = some v) : v.2 = none := by
  unfold mapFind at h
  rw [Option.map_eq_some'] at h
  obtain ⟨e, hfind, hev⟩ := h
  have hmem := List.mem_of_find?_eq_some hfind
  rw [List.mem_map] at hmem
  obtain ⟨n, hn, rfl⟩ := hmem
  cases hev
  rfl

/-- Any readable cell of the all-empty grid is empty. -/
theorem cellAt_replicate (rows cols : ℕ) (r c : ℕ) {x : Option String}
    (h : cellAt (List.replicate rows (List.replicate cols (none : Option String))) r c
      = some x) : x = none := by
  unfold cellAt at h
  rcases h1 : (List.replicate rows (List.replicate cols (none : Option String))).get? r
    with _ | row
  · rw [h1] at h
    cases h
  · rw [h1] at h
    simp only [Option.some_bind] at h
    have hrow : row = List.replicate cols none :=
      List.eq_of_mem_replicate (List.get?_mem h1)
    subst hrow
    rcases h2 : (List.replicate cols (none : Option String)).get? c with _ | y
    · rw [h2] at h
      cases h
    · rw [h2] at h
      obtain rfl : y = x := by injection h
      exact List.eq_of_mem_replicate (List.get?_mem h2)

/-- The all-empty grid has no occupied cell. -/
theorem filledCount_replicate (rows cols : ℕ) :
    filledCount (List.replicate rows (List.replicate cols (none : Option String))) = 0 := by
  unfold filledCount rowFilledCount
  rw [List.map_replicate, List.filter_replicate]
  simp

/-- The initial arrange state satisfies the placement invariant. -/
theorem arrangeInit_inv (nodes : List NodeData)
    (hnd : (nodes.map NodeData.id).Nodup) :
    ArrangeInv nodes (arrangeRows nodes) (arrangeCols nodes)
      { grid := List.replicate (arrangeRows nodes)
          (List.replicate (arrangeCols nodes) (none : Option String)),
        gpos := nodes.foldl (fun m n => mapSet m n.id (n, (none : Option (ℕ × ℕ)))) [],
        placed := [], shuffleIdx := 0 } := by
  have hentries : nodes.foldl (fun m n => mapSet m n.id (n, (none : Option (ℕ × ℕ)))) []
      = nodes.map (fun n => (n.id, (n, none))) := by
    have h := init_entries nodes [] (by simp) hnd
    simpa using h
  refine ⟨gridShape_replicate _ _, ?_, ?_, ?_, ?_, List.nodup_nil, ?_⟩
  · rw [hentries, List.map_map]
    rfl
  · intro id nd r c hfind
    rw [hentries] at hfind
    have h := init_values nodes id (nd, some (r, c)) hfind
    cases h
  · intro r c id hr hc hcell
    exact absurd (cellAt_replicate _ _ r c hcell) (by simp)
  · intro id
    constructor
    · intro h
      cases h
    · rintro ⟨nd, rc, hfind⟩
      rw [hentries] at hfind
      have h := init_values nodes id (nd, some rc) hfind
      cases h
  · rw [filledCount_replicate]
    rfl

/-- The whole greedy pass preserves the invariant and places every
visited node. -/
theorem mainFold_spec (nodes : List NodeData) (adjList : List (String × List String))
    (rows cols : ℕ) (shuffles : ℕ → List (ℤ × ℤ))
    (hnd : (nodes.map NodeData.id).Nodup) (hcap : nodes.length ≤ rows * cols)
    (hadj : ∀ a b, ¬ b = a → List.count b ((mapFind adjList a).getD []) ≤ 1) :
    ∀ (L : List NodeData), (∀ n ∈ L, n ∈ nodes) →
    ∀ (st : ArrangeState), ArrangeInv nodes rows cols st →
    ArrangeInv nodes rows cols (L.foldl (mainStep nodes adjList rows cols shuffles) st) ∧
    (∀ x, x ∈ st.placed → x ∈ (L.foldl (mainStep nodes adjList rows cols shuffles) st).placed) ∧
    (∀ n ∈ L, n.id ∈ (L.foldl (mainStep nodes adjList rows cols shuffles) st).placed) := by
  intro L
  induction L with
  | nil =>
    intro _ st hInv
    exact ⟨hInv, fun x hx => hx, by simp⟩
  | cons nd t ih =>
    intro hLsub st hInv
    rw [List.foldl_cons]
    have hstep := mainStep_spec nodes adjList rows cols shuffles st nd hInv hnd
      (hLsub nd (List.mem_cons_self ..)) hcap (fun b hb => hadj nd.id b hb)
    have hrec := ih (fun n hn => hLsub n (List.mem_cons_of_mem _ hn)) _ hstep.1
    refine ⟨hrec.1, ?_, ?_⟩
    · intro x hx
      exact hrec.2.1 x (hstep.2.1 x hx)
    · intro n hn
      rcases List.mem_cons.mp hn with rfl | hn2
      · exact hrec.2.1 n.id hstep.2.2
      · exact hrec.2.2 n hn2

/-- The fallback pass skips an entry that already has a cell. -/
theorem fallbackStep_assigned (rows cols : ℕ) (stc : ArrangeState × ℕ × ℕ)
    (e : String × (NodeData × Option (ℕ × ℕ))) (h : e.2.2.isSome) :
    fallbackStep rows cols stc e = stc := by
  unfold fallbackStep
  rcases he : e.2.2 with _ | rc
  · rw [he] at h
    cases h
  · rfl

/-- The fallback pass is the identity once every entry has a cell. -/
theorem fallbackFold_assigned (rows cols : ℕ)
    (l : List (String × (NodeData × Option (ℕ × ℕ)))) (stc : ArrangeState × ℕ × ℕ)
    (h : ∀ e ∈ l, e.2.2.isSome) : l.foldl (fallbackStep rows cols) stc = stc := by
  induction l generalizing stc with
  | nil => rfl
  | cons e t ih =>
    rw [List.foldl_cons, fallbackStep_assigned rows cols stc e (h e (List.mem_cons_self ..))]
    exact ih stc (fun e2 he2 => h e2 (List.mem_cons_of_mem _ he2))

/-- `fallbackPass` is the identity once every entry has a cell. -/
theorem fallbackPass_assigned (rows cols : ℕ) (st : ArrangeState)
    (h : ∀ e ∈ st.gpos, e.2.2.isSome) : fallbackPass rows cols st = st := by
  unfold fallbackPass
  rw [fallbackFold_assigned rows cols st.gpos (st, 0, 0) h]

/-- The full placement pipeline: under duplicate-free node ids and
duplicate-free unordered connection pairs, the invariant holds at the end
and every node has been assigned a grid cell. -/
theorem arrangePlacement_spec (shuffles : ℕ → List (ℤ × ℤ)) (nodes : List NodeData)
    (connections : List Connection)
    (hnd : (nodes.map NodeData.id).Nodup)
    (hpairs : (connections.map connKey).Nodup) :
    ArrangeInv nodes (arrangeRows nodes) (arrangeCols nodes)
      (arrangePlacement shuffles nodes connections) ∧
    ∀ n ∈ nodes, ∃ nd rc,
      mapFind (arrangePlacement shuffles nodes connections).gpos n.id
        = some (nd, some rc) := by
  have hinit := arrangeInit_inv nodes hnd
  have hcap := arrange_capacity nodes
  have hadj : ∀ a b, ¬ b = a →
      List.count b ((mapFind (buildAdjList connections) a).getD []) ≤ 1 :=
    fun a b hb => buildAdjList_count_le_one connections hpairs a b hb
  have hmain := mainFold_spec nodes (buildAdjList connections) (arrangeRows nodes)
    (arrangeCols nodes) shuffles hnd hcap hadj (arrangeSortedNodes nodes)
    (fun n hn => (List.perm_insertionSort _ nodes).mem_iff.mp hn)
    { grid := List.replicate (arrangeRows nodes)
        (List.replicate (arrangeCols nodes) (none : Option String)),
      gpos := nodes.foldl (fun m n => mapSet m n.id (n, (none : Option (ℕ × ℕ)))) [],
      placed := [], shuffleIdx := 0 } hinit
  set stMain := (arrangeSortedNodes nodes).foldl
    (mainStep nodes (buildAdjList connections) (arrangeRows nodes) (arrangeCols nodes) shuffles)
    { grid := List.replicate (arrangeRows nodes)
        (List.replicate (arrangeCols nodes) (none : Option String)),
      gpos := nodes.foldl (fun m n => mapSet m n.id (n, (none : Option (ℕ × ℕ)))) [],
      placed := [], shuffleIdx := 0 } with hstM
  have hplaced : ∀ n ∈ nodes, n.id ∈ stMain.placed := fun n hn =>
    hmain.2.2 n ((List.perm_insertionSort _ nodes).mem_iff.mpr hn)
  have hassigned : ∀ e ∈ stMain.gpos, e.2.2.isSome := by
    intro e he
    have hfind : mapFind stMain.gpos e.1 = some e.2 :=
      mapFind_of_mem_nodup stMain.gpos (by rw [hmain.1.keys]; exact hnd) e he
    have hkey : e.1 ∈ nodes.map NodeData.id := by
      rw [← hmain.1.keys]
      exact List.mem_map.mpr ⟨e, he, rfl⟩
    obtain ⟨n, hn, hnid⟩ := List.mem_map.mp hkey
    obtain ⟨nd2, rc2, hfind2⟩ := (hmain.1.placed_iff e.1).mp (hnid ▸ hplaced n hn)
    rw [hfind] at hfind2
    have he2 : e.2 = (nd2, some rc2) := by injection hfind2
    rw [he2]
    rfl
  have harr : arrangePlacement shuffles nodes connections
      = fallbackPass (arrangeRows nodes) (arrangeCols nodes) stMain := by
    rw [hstM]
    exact rfl
  rw [harr, fallbackPass_assigned _ _ stMain hassigned]
  refine ⟨hmain.1, ?_⟩
  intro n hn
  obtain ⟨nd2, rc2, hfind2⟩ := (hmain.1.placed_iff n.id).mp (hplaced n hn)
  exact ⟨nd2, rc2, hfind2⟩

/-! ### Offset geometry -/

/-- The estimated column count is at least one. -/
theorem arrangeCols_pos (nodes : List NodeData) : 1 ≤ arrangeCols nodes := by
  unfold arrangeCols
  have h := le_max_left (1 : ℤ) (round (jsqrt ((nodes.length : ℚ) * arrangeAspect nodes)))
  omega

/-- The estimated row count is at least one. -/
theorem arrangeRows_pos (nodes : List NodeData) : 1 ≤ arrangeRows nodes := by
  unfold arrangeRows
  have h := le_max_left (1 : ℤ) ⌈(nodes.length : ℚ) / (arrangeCols nodes : ℚ)⌉
  omega

/-- The column-width maxima list has one entry per column, all
nonnegative. -/
theorem colWidthsOf_spec (cols : ℕ)
    (gpos : List (String × (NodeData × Option (ℕ × ℕ)))) :
    (colWidthsOf cols gpos).length = cols ∧ ∀ w ∈ colWidthsOf cols gpos, 0 ≤ w := by
  unfold colWidthsOf
  refine foldl_preserve (fun ws : List ℚ => ws.length = cols ∧ ∀ w ∈ ws, 0 ≤ w)
    (fun _ => True)
    (fun ws e =>
      match e.2.2 with
      | some rc => ws.set rc.2 (max (ws.getD rc.2 0) e.2.1.width)
      | none => ws)
    gpos (fun _ _ => trivial) ?_ (List.replicate cols (0 : ℚ))
    ⟨by simp, fun w hw => by rw [List.eq_of_mem_replicate hw]⟩
  rintro ws e ⟨hlen, hpos⟩ -
  simp only []
  rcases he : e.2.2 with _ | rc
  · exact ⟨hlen, hpos⟩
  · refine ⟨?_, ?_⟩
    · show (ws.set rc.2 (max (ws.getD rc.2 0) e.2.1.width)).length = cols
      rw [List.length_set]
      exact hlen
    · intro w hw
      have hw2 : w ∈ ws.set rc.2 (max (ws.getD rc.2 0) e.2.1.width) := hw
      rcases mem_set_cases hw2 with h1 | h1
      · have h0 : 0 ≤ ws.getD rc.2 0 := by
          rcases Nat.lt_or_ge rc.2 ws.length with hlt | hge
          · rw [List.getD_eq_getElem ws 0 hlt]
            exact hpos _ (List.getElem_mem hlt)
          · rw [List.getD_eq_default ws 0 hge]
        rw [h1]
        exact le_trans h0 (le_max_left _ _)
      · exact hpos w h1

/-- The row-height maxima list has one entry per row, all nonnegative. -/
theorem rowHeightsOf_spec (rows : ℕ)
    (gpos : List (String × (NodeData × Option (ℕ × ℕ)))) :
    (rowHeightsOf rows gpos).length = rows ∧ ∀ w ∈ rowHeightsOf rows gpos, 0 ≤ w := by
  unfold rowHeightsOf
  refine foldl_preserve (fun hs : List ℚ => hs.length = rows ∧ ∀ w ∈ hs, 0 ≤ w)
    (fun _ => True)
    (fun hs e =>
      match e.2.2 with
      | some rc => hs.set rc.1 (max (hs.getD rc.1 0) e.2.1.height)
      | none => hs)
    gpos (fun _ _ => trivial) ?_ (List.replicate rows (0 : ℚ))
    ⟨by simp, fun w hw => by rw [List.eq_of_mem_replicate hw]⟩
  rintro hs e ⟨hlen, hpos⟩ -
  simp only []
  rcases he : e.2.2 with _ | rc
  · exact ⟨hlen, hpos⟩
  · refine ⟨?_, ?_⟩
    · show (hs.set rc.1 (max (hs.getD rc.1 0) e.2.1.height)).length = rows
      rw [List.length_set]
      exact hlen
    · intro w hw
      have hw2 : w ∈ hs.set rc.1 (max (hs.getD rc.1 0) e.2.1.height) := hw
      rcases mem_set_cases hw2 with h1 | h1
      · have h0 : 0 ≤ hs.getD rc.1 0 := by
          rcases Nat.lt_or_ge rc.1 hs.length with hlt | hge
          · rw [List.getD_eq_getElem hs 0 hlt]
            exact hpos _ (List.getElem_mem hlt)
          · rw [List.getD_eq_default hs 0 hge]
        rw [h1]
        exact le_trans h0 (le_max_left _ _)
      · exact hpos w h1

/-- Each cumulative offset list has one more entry than its size list. -/
theorem buildOffsets_length (p : ℚ) : ∀ (cur : ℚ) (ws : List ℚ),
    (buildOffsets p cur ws).length = ws.length + 1 := by
  intro cur ws
  induction ws generalizing cur with
  | nil => rfl
  | cons w t ih =>
    rw [show buildOffsets p cur (w :: t) = cur :: buildOffsets p (cur + w + p) t from rfl,
      List.length_cons, ih]
    rfl

/-- Every cumulative offset is at least the running start. -/
theorem buildOffsets_ge (p : ℚ) (hp : 0 ≤ p) : ∀ (cur : ℚ) (ws : List ℚ),
    (∀ w ∈ ws, 0 ≤ w) → ∀ x ∈ buildOffsets p cur ws, cur ≤ x := by
  intro cur ws
  induction ws generalizing cur with
  | nil =>
    intro _ x hx
    rw [show buildOffsets p cur [] = [cur] from rfl] at hx
    obtain rfl : x = cur := by simpa using hx
    exact le_refl _
  | cons w t ih =>
    intro hws x hx
    rw [show buildOffsets p cur (w :: t) = cur :: buildOffsets p (cur + w + p) t from rfl] at hx
    rcases List.mem_cons.mp hx with rfl | hx2
    · exact le_refl _
    · have h0w : 0 ≤ w := hws w (List.mem_cons_self ..)
      have h2 := ih (cur + w + p) (fun y hy => hws y (List.mem_cons_of_mem _ hy)) x hx2
      linarith

/-- With positive padding and nonnegative sizes the cumulative offsets
are strictly increasing. -/
theorem buildOffsets_pairwise (p : ℚ) (hp : 0 < p) : ∀ (cur : ℚ) (ws : List ℚ),
    (∀ w ∈ ws, 0 ≤ w) → (buildOffsets p cur ws).Pairwise (fun a b => a < b) := by
  intro cur ws
  induction ws generalizing cur with
  | nil =>
    intro _
    rw [show buildOffsets p cur [] = [cur] from rfl]
    exact List.pairwise_singleton _ _
  | cons w t ih =>
    intro hws
    rw [show buildOffsets p cur (w :: t) = cur :: buildOffsets p (cur + w + p) t from rfl]
    refine List.pairwise_cons.mpr
      ⟨?_, ih (cur + w + p) (fun y hy => hws y (List.mem_cons_of_mem _ hy))⟩
    intro x hx
    have h1 := buildOffsets_ge p hp.le (cur + w + p) t
      (fun y hy => hws y (List.mem_cons_of_mem _ hy)) x hx
    have h0w : 0 ≤ w := hws w (List.mem_cons_self ..)
    linarith

/-- Strict monotonicity of the offset lookups. -/
theorem buildOffsets_getD_strictMono (p cur : ℚ) (hp : 0 < p) (ws : List ℚ)
    (hws : ∀ w ∈ ws, 0 ≤ w) {i j : ℕ}
    (hi : i < (buildOffsets p cur ws).length) (hj : j < (buildOffsets p cur ws).length)
    (hij : i < j) :
    (buildOffsets p cur ws).getD i 0 < (buildOffsets p cur ws).getD j 0 := by
  have hpw := buildOffsets_pairwise p hp cur ws hws
  rw [List.getD_eq_getElem _ _ hi, List.getD_eq_getElem _ _ hj]
  exact List.pairwise_iff_get.mp hpw ⟨i, hi⟩ ⟨j, hj⟩ hij

/-- In-range offset lookups are injective. -/
theorem buildOffsets_getD_inj (p cur : ℚ) (hp : 0 < p) (ws : List ℚ)
    (hws : ∀ w ∈ ws, 0 ≤ w) {i j : ℕ}
    (hi : i < (buildOffsets p cur ws).length) (hj : j < (buildOffsets p cur ws).length)
    (heq : (buildOffsets p cur ws).getD i 0 = (buildOffsets p cur ws).getD j 0) :
    i = j := by
  by_contra hne
  rcases Nat.lt_or_ge i j with hlt | hge
  · exact absurd heq (ne_of_lt (buildOffsets_getD_strictMono p cur hp ws hws hi hj hlt))
  · have hlt : j < i := by omega
    exact absurd heq.symm
      (ne_of_lt (buildOffsets_getD_strictMono p cur hp ws hws hj hi hlt))

/-- C10 (amended): when the node ids are pairwise distinct, no two
connections join the same unordered pair of nodes, and the padding is
positive, `autoArrangeNodes` computes a grid with `rows * cols ≥ n`,
assigns every node its own grid cell (distinct nodes get distinct
cells), and the resulting node positions are pairwise distinct. -/
theorem C10_arrange_distinct_cells (shuffles : ℕ → List (ℤ × ℤ))
    (nodes : List NodeData) (connections : List Connection) (padding : ℚ)
    (hnd : (nodes.map NodeData.id).Nodup)
    (hpairs : (connections.map connKey).Nodup)
    (hpad : 0 < padding) :
    nodes.length ≤ arrangeRows nodes * arrangeCols nodes ∧
    (∀ n ∈ nodes, ∃ nd rc,
      mapFind (arrangePlacement shuffles nodes connections).gpos n.id
        = some (nd, some rc) ∧ rc.1 < arrangeRows nodes ∧ rc.2 < arrangeCols nodes) ∧
    (∀ (id1 id2 : String) nd1 nd2 (rc1 rc2 : ℕ × ℕ),
      mapFind (arrangePlacement shuffles nodes connections).gpos id1
        = some (nd1, some rc1) →
      mapFind (arrangePlacement shuffles nodes connections).gpos id2
        = some (nd2, some rc2) →
      rc1 = rc2 → id1 = id2) ∧
    ((autoArrangeNodes shuffles nodes connections padding).map
      (fun n => (n.x, n.y))).Pairwise (fun p1 p2 => ¬ p1 = p2) := by
  obtain ⟨hInv, hcomp⟩ := arrangePlacement_spec shuffles nodes connections hnd hpairs
  have hcompl : ∀ n ∈ nodes, ∃ nd rc,
      mapFind (arrangePlacement shuffles nodes connections).gpos n.id
        = some (nd, some rc) ∧ rc.1 < arrangeRows nodes ∧ rc.2 < arrangeCols nodes := by
    intro n hn
    obtain ⟨nd, rc, hf⟩ := hcomp n hn
    obtain ⟨hr, hc, -⟩ := hInv.pos_grid n.id nd rc.1 rc.2 hf
    exact ⟨nd, rc, hf, hr, hc⟩
  have hinj : ∀ (id1 id2 : String) nd1 nd2 (rc1 rc2 : ℕ × ℕ),
      mapFind (arrangePlacement shuffles nodes connections).gpos id1
        = some (nd1, some rc1) →
      mapFind (arrangePlacement shuffles nodes connections).gpos id2
        = some (nd2, some rc2) →
      rc1 = rc2 → id1 = id2 := by
    intro id1 id2 nd1 nd2 rc1 rc2 h1 h2 hrc
    obtain ⟨hr1, hc1, hcell1⟩ := hInv.pos_grid id1 nd1 rc1.1 rc1.2 h1
    obtain ⟨hr2, hc2, hcell2⟩ := hInv.pos_grid id2 nd2 rc2.1 rc2.2 h2
    rw [← hrc] at hcell2
    rw [hcell1] at hcell2
    have h3 : some id1 = some id2 := by injection hcell2
    injection h3
  refine ⟨arrange_capacity nodes, hcompl, hinj, ?_⟩
  by_cases hempty : nodes.isEmpty
  · unfold autoArrangeNodes
    rw [if_pos hempty]
    rw [List.isEmpty_iff.mp hempty]
    simp
  · unfold autoArrangeNodes
    rw [if_neg hempty]
    simp only []
    rw [List.map_map, List.pairwise_map]
    have hnd2 : (nodes.map NodeData.id).Pairwise (fun a b => ¬ a = b) := hnd
    have hndpw : nodes.Pairwise (fun a b => ¬ a.id = b.id) := List.pairwise_map.mp hnd2
    refine List.Pairwise.imp_of_mem ?_ hndpw
    intro a b ha hb hne
    obtain ⟨nda, rca, hfa, hra, hca⟩ := hcompl a ha
    obtain ⟨ndb, rcb, hfb, hrb, hcb⟩ := hcompl b hb
    simp only [Function.comp]
    rw [hfa, hfb]
    simp only []
    intro heq
    rw [Prod.mk.injEq] at heq
    obtain ⟨hx, hy⟩ := heq
    have hclen : (buildOffsets padding padding
        ((colWidthsOf (arrangeCols nodes)
          (arrangePlacement shuffles nodes connections).gpos).take
          (arrangeCols nodes - 1))).length = arrangeCols nodes := by
      rw [buildOffsets_length, List.length_take,
        (colWidthsOf_spec (arrangeCols nodes)
          (arrangePlacement shuffles nodes connections).gpos).1]
      have h1 := arrangeCols_pos nodes
      omega
    have hrlen : (buildOffsets padding padding
        ((rowHeightsOf (arrangeRows nodes)
          (arrangePlacement shuffles nodes connections).gpos).take
          (arrangeRows nodes - 1))).length = arrangeRows nodes := by
      rw [buildOffsets_length, List.length_take,
        (rowHeightsOf_spec (arrangeRows nodes)
          (arrangePlacement shuffles nodes connections).gpos).1]
      have h1 := arrangeRows_pos nodes
      omega
    have hcw : ∀ w ∈ (colWidthsOf (arrangeCols nodes)
        (arrangePlacement shuffles nodes connections).gpos).take (arrangeCols nodes - 1),
        0 ≤ w := fun w hw =>
      (colWidthsOf_spec (arrangeCols nodes)
        (arrangePlacement shuffles nodes connections).gpos).2 w (List.mem_of_mem_take hw)
    have hrw : ∀ w ∈ (rowHeightsOf (arrangeRows nodes)
        (arrangePlacement shuffles nodes connections).gpos).take (arrangeRows nodes - 1),
        0 ≤ w := fun w hw =>
      (rowHeightsOf_spec (arrangeRows nodes)
        (arrangePlacement shuffles nodes connections).gpos).2 w (List.mem_of_mem_take hw)
    have hc2 : rca.2 = rcb.2 :=
      buildOffsets_getD_inj padding padding hpad _ hcw
        (lt_of_lt_of_eq hca hclen.symm) (lt_of_lt_of_eq hcb hclen.symm) hx
    have hr2 : rca.1 = rcb.1 :=
      buildOffsets_getD_inj padding padding hpad _ hrw
        (lt_of_lt_of_eq hra hrlen.symm) (lt_of_lt_of_eq hrb hrlen.symm) hy
    exact hne (hinj a.id b.id nda ndb rca rcb hfa hfb (Prod.ext hr2 hc2))

set_option maxHeartbeats 1000000 in
/-- Witness for C10: a concrete two-node board with one connection
satisfies the hypotheses, and the arranged positions are pairwise
distinct. -/
theorem C10_arrange_distinct_cells_witness :
    (([exNodeA, exNodeS].map NodeData.id).Nodup ∧
      (([exConn].map connKey).Nodup) ∧ ((0 : ℚ) < 60)) ∧
    ((autoArrangeNodes cxShuffles [exNodeA, exNodeS] [exConn] 60).map
      (fun n => (n.x, n.y))).Pairwise (fun p1 p2 => ¬ p1 = p2) :=
  ⟨⟨by decide, by decide, by norm_num⟩,
    (C10_arrange_distinct_cells cxShuffles [exNodeA, exNodeS] [exConn] 60
      (by decide) (by decide) (by norm_num)).2.2.2⟩

set_option maxHeartbeats 4000000 in
/-- Counterexample to C10 as stated: three distinct-id nodes, a positive
padding and two (legal) connections joining the same two nodes; on the
identity-shuffle execution the duplicate adjacency places a neighbour
twice, the grid runs out, one node keeps its original coordinates and
two nodes end at the same position. -/
theorem C10_arrange_counterexample :
    (0 : ℚ) < 60 ∧ 1 ≤ cxNodes.length ∧ (cxNodes.map NodeData.id).Nodup ∧
    ¬ ((autoArrangeNodes cxShuffles cxNodes cxConnections 60).map
      (fun n => (n.x, n.y))).Pairwise (fun p1 p2 => ¬ p1 = p2) := by
  refine ⟨by norm_num, by decide, by decide, ?_⟩
  with_unfolding_all decide

end Nexora
